import Mathlib

/-!
Verification of the Synergi routing-and-streaming core.

Definitions are shallow embeddings of the TypeScript sources:
* `src/backend/agents/nlp.ts` (lexical signal engine),
* `src/backend/agents/llmRouter.ts` / `agentRouter.ts` (delegated classifier and router),
* `src/backend/agents/codeAssistantAgent.ts` (executeCode tool),
* `src/backend/services/geminiService.ts`,
* `src/backend/routes/chat.ts` (`POST /api/chat/send` streaming orchestrator).

Strings are modelled as Lean `String`/`List Char`; all inputs are ASCII in the
properties checked, so JavaScript UTF-16 length/indexing agrees with `List Char`.
External services (the LLM call, the weather API, the sandbox, the database) are
modelled as explicit inputs describing their observable behaviour for one turn.
-/

set_option maxRecDepth 100000

namespace Synergi

/-! ## Levenshtein distance (`levenshtein` in nlp.ts)

`levenshtein` below renders the imperative dynamic program of nlp.ts
(`dp[i][j] = min(dp[i-1][j]+1, dp[i][j-1]+1, dp[i-1][j-1]+cost)`, row by row).
`lev` is the standard head-recursive specification; the bridge between the two
is proved further down.
-/

/-- Substitution cost of the DP: `a[i-1] === b[j-1] ? 0 : 1`. -/
def subCost (a b : Char) : Nat := if a = b then 0 else 1

/-- Head-recursive Levenshtein distance (reference specification). -/
def lev : List Char → List Char → Nat
  | [], bs => bs.length
  | a :: as, [] => (a :: as).length
  | a :: as, b :: bs =>
      min (min (lev as (b :: bs) + 1) (lev (a :: as) bs + 1)) (lev as bs + subCost a b)
termination_by a b => a.length + b.length

/-- Inner `for j` loop of the DP: given character `c = a[i-1]`, the remaining
characters of `b`, the previous row from column `j-1` on, and the freshly
computed cell `dp[i][j-1]` (`left`), produce the cells `dp[i][j..]`. -/
def fillRow (c : Char) : List Char → List Nat → Nat → List Nat
  | [], _, _ => []
  | _ :: _, [], _ => []
  | y :: ys, diag :: rest, left =>
      let up := match rest with | [] => 0 | u :: _ => u
      let cell := min (min (up + 1) (left + 1)) (diag + subCost c y)
      cell :: fillRow c ys rest cell

/-- Outer `for i` loop of the DP: fold the characters of `a` over the row,
starting each new row with `dp[i][0] = i`. -/
def levLoop : List Char → List Char → List Nat → List Nat
  | [], _, row => row
  | c :: cs, bs, row =>
      let first := (match row with | [] => 0 | r0 :: _ => r0) + 1
      levLoop cs bs (first :: fillRow c bs row first)

/-- Function `levenshtein(a, b)` from nlp.ts: build row 0 as `[0, 1, …, lb]`, fill the
table row by row, and read `dp[la][lb]` (the last cell of the last row). -/
def levenshtein (a b : String) : Nat :=
  (levLoop a.data b.data (List.range (b.data.length + 1))).getLastD 0

example : levenshtein "kitten" "sitting" = 3 := by decide
example : levenshtein "" "abc" = 3 := by decide
example : levenshtein "abc" "" = 3 := by decide
example : levenshtein "wether" "weather" = 1 := by decide

/-! ### Equations and basic bounds for `lev` -/

theorem lev_nil_left (bs : List Char) : lev [] bs = bs.length := by
  simp [lev]

theorem lev_cons_nil (a : Char) (as : List Char) : lev (a :: as) [] = as.length + 1 := by
  simp [lev]

theorem lev_cons_cons (a b : Char) (as bs : List Char) :
    lev (a :: as) (b :: bs) =
      min (min (lev as (b :: bs) + 1) (lev (a :: as) bs + 1)) (lev as bs + subCost a b) := by
  rw [lev]

theorem lev_nil_right (as : List Char) : lev as [] = as.length := by
  cases as <;> simp [lev]

theorem lev_self (as : List Char) : lev as as = 0 := by
  induction as with
  | nil => simp [lev]
  | cons a as ih => rw [lev_cons_cons]; simp [subCost, ih]

theorem lev_le_del (a : Char) (as bs : List Char) : lev (a :: as) bs ≤ lev as bs + 1 := by
  cases bs with
  | nil => simp [lev_nil_right, lev_cons_nil]
  | cons b bs => rw [lev_cons_cons]; omega

theorem lev_le_ins (b : Char) (as bs : List Char) : lev as (b :: bs) ≤ lev as bs + 1 := by
  cases as with
  | nil => simp [lev_nil_left]
  | cons a as => rw [lev_cons_cons]; omega

theorem lev_le_sub (a b : Char) (as bs : List Char) :
    lev (a :: as) (b :: bs) ≤ lev as bs + subCost a b := by
  rw [lev_cons_cons]; omega

theorem subCost_triangle (a b c : Char) : subCost a c ≤ subCost a b + subCost b c := by
  by_cases h1 : a = b
  · subst h1; simp [subCost]
  · by_cases h2 : b = c
    · subst h2; simp [subCost]
    · have h3 : (if a = c then (0:Nat) else 1) ≤ 1 := by split_ifs <;> omega
      simp only [subCost, if_neg h1, if_neg h2]
      omega

theorem lev_comm (as : List Char) : ∀ bs, lev as bs = lev bs as := by
  induction as with
  | nil => intro bs; rw [lev_nil_left, lev_nil_right]
  | cons a as ih =>
    intro bs
    induction bs with
    | nil => rw [lev_nil_right, lev_nil_left]
    | cons b bs ih2 =>
      rw [lev_cons_cons, lev_cons_cons, ih (b :: bs), ih bs, ih2]
      have hc : subCost a b = subCost b a := by simp [subCost, eq_comm]
      rw [hc]
      omega

/-- Edit-distance lower bound used by `fuzzyMatch`'s length shortcut. -/
theorem lev_length_bound (as : List Char) :
    ∀ bs, as.length ≤ bs.length + lev as bs ∧ bs.length ≤ as.length + lev as bs := by
  induction as with
  | nil => intro bs; rw [lev_nil_left]; simp only [List.length_nil]; omega
  | cons a as ih =>
    intro bs
    induction bs with
    | nil => rw [lev_nil_right]; simp only [List.length_nil, List.length_cons]; omega
    | cons b bs ih2 =>
      have h1 := ih (b :: bs)
      have h2 := ih bs
      rw [lev_cons_cons]
      simp only [List.length_cons] at *
      omega

/-! ### Edit scripts: `Tr a b n` means `b` is reachable from `a` with `n` unit edits -/

inductive Tr : List Char → List Char → Nat → Prop
  | nil : Tr [] [] 0
  | del (a : Char) {as bs : List Char} {n : Nat} : Tr as bs n → Tr (a :: as) bs (n + 1)
  | ins (b : Char) {as bs : List Char} {n : Nat} : Tr as bs n → Tr as (b :: bs) (n + 1)
  | sub (a b : Char) {as bs : List Char} {n : Nat} :
      Tr as bs n → Tr (a :: as) (b :: bs) (n + subCost a b)

theorem tr_of_nil (bs : List Char) : Tr [] bs bs.length := by
  induction bs with
  | nil => exact .nil
  | cons b bs ih => exact .ins b ih

theorem tr_to_nil (as : List Char) : Tr as [] as.length := by
  induction as with
  | nil => exact .nil
  | cons a as ih => exact .del a ih

/-- The distance `lev` is attained by some edit script. -/
theorem tr_lev (as : List Char) : ∀ bs, Tr as bs (lev as bs) := by
  induction as with
  | nil => intro bs; rw [lev_nil_left]; exact tr_of_nil bs
  | cons a as ih =>
    intro bs
    induction bs with
    | nil => rw [lev_cons_nil]; exact .del a (tr_to_nil as)
    | cons b bs ih2 =>
      rw [lev_cons_cons]
      have hx : Tr (a :: as) (b :: bs) (lev as (b :: bs) + 1) := .del a (ih (b :: bs))
      have hy : Tr (a :: as) (b :: bs) (lev (a :: as) bs + 1) := .ins b ih2
      have hz : Tr (a :: as) (b :: bs) (lev as bs + subCost a b) := .sub a b (ih bs)
      rcases min_cases (min (lev as (b :: bs) + 1) (lev (a :: as) bs + 1))
          (lev as bs + subCost a b) with ⟨h, _⟩ | ⟨h, _⟩
      · rw [h]
        rcases min_cases (lev as (b :: bs) + 1) (lev (a :: as) bs + 1) with ⟨h', _⟩ | ⟨h', _⟩ <;>
          rw [h']
        · exact hx
        · exact hy
      · rw [h]; exact hz

/-- The distance `lev` is a lower bound on the cost of every edit script. -/
theorem lev_le_of_tr {as bs : List Char} {n : Nat} (h : Tr as bs n) : lev as bs ≤ n := by
  induction h with
  | nil => simp [lev]
  | del a _ ih => exact le_trans (lev_le_del _ _ _) (Nat.add_le_add_right ih 1)
  | ins b _ ih => exact le_trans (lev_le_ins _ _ _) (Nat.add_le_add_right ih 1)
  | sub a b _ ih => exact le_trans (lev_le_sub _ _ _ _) (Nat.add_le_add_right ih _)

/-- Edit scripts compose, with costs adding (induction on total length). -/
theorem tr_comp (N : Nat) :
    ∀ (as bs cs : List Char) (m n : Nat), as.length + bs.length + cs.length ≤ N →
      Tr as bs m → Tr bs cs n → ∃ k, k ≤ m + n ∧ Tr as cs k := by
  induction N with
  | zero =>
    intro as bs cs m n hlen D1 D2
    cases D1 with
    | nil => exact ⟨n, by omega, D2⟩
    | del a D1' => simp at hlen
    | ins b D1' => simp at hlen
    | sub a b D1' => simp at hlen
  | succ N ih =>
    intro as bs cs m n hlen D1 D2
    cases D1 with
    | nil => exact ⟨n, by omega, D2⟩
    | del a D1' =>
      obtain ⟨k, hk, T⟩ := ih _ _ _ _ _ (by simp at hlen ⊢; omega) D1' D2
      exact ⟨k + 1, by omega, .del a T⟩
    | ins x D1' =>
      cases D2 with
      | del _ D2' =>
        obtain ⟨k, hk, T⟩ := ih _ _ _ _ _ (by simp at hlen ⊢; omega) D1' D2'
        exact ⟨k, by omega, T⟩
      | ins y D2' =>
        obtain ⟨k, hk, T⟩ := ih _ _ _ _ _ (by simp at hlen ⊢; omega) (Tr.ins x D1') D2'
        exact ⟨k + 1, by omega, .ins y T⟩
      | sub _ y D2' =>
        obtain ⟨k, hk, T⟩ := ih _ _ _ _ _ (by simp at hlen ⊢; omega) D1' D2'
        have hc : (0:Nat) ≤ subCost x y := Nat.zero_le _
        exact ⟨k + 1, by omega, .ins y T⟩
    | sub a x D1' =>
      cases D2 with
      | del _ D2' =>
        obtain ⟨k, hk, T⟩ := ih _ _ _ _ _ (by simp at hlen ⊢; omega) D1' D2'
        exact ⟨k + 1, by omega, .del a T⟩
      | ins y D2' =>
        obtain ⟨k, hk, T⟩ := ih _ _ _ _ _ (by simp at hlen ⊢; omega) (Tr.sub a x D1') D2'
        exact ⟨k + 1, by omega, .ins y T⟩
      | sub _ y D2' =>
        obtain ⟨k, hk, T⟩ := ih _ _ _ _ _ (by simp at hlen ⊢; omega) D1' D2'
        have hc := subCost_triangle a x y
        exact ⟨k + subCost a y, by omega, .sub a y T⟩

theorem lev_triangle (as bs cs : List Char) : lev as cs ≤ lev as bs + lev bs cs := by
  obtain ⟨k, hk, T⟩ := tr_comp (as.length + bs.length + cs.length) as bs cs _ _
    (le_refl _) (tr_lev as bs) (tr_lev bs cs)
  exact le_trans (lev_le_of_tr T) hk

/-! ### Reversal invariance (connects the prefix DP to the head recursion) -/

theorem tr_snoc_del (a : Char) {as bs : List Char} {n : Nat} (h : Tr as bs n) :
    Tr (as ++ [a]) bs (n + 1) := by
  induction h with
  | nil => exact .del a .nil
  | del x _ ih => exact .del x ih
  | ins y _ ih => exact .ins y ih
  | sub x y _ ih =>
    rw [Nat.add_right_comm]
    exact .sub x y ih

theorem tr_snoc_ins (b : Char) {as bs : List Char} {n : Nat} (h : Tr as bs n) :
    Tr as (bs ++ [b]) (n + 1) := by
  induction h with
  | nil => exact .ins b .nil
  | del x _ ih => exact .del x ih
  | ins y _ ih => exact .ins y ih
  | sub x y _ ih =>
    rw [Nat.add_right_comm]
    exact .sub x y ih

theorem tr_snoc_sub (a b : Char) {as bs : List Char} {n : Nat} (h : Tr as bs n) :
    Tr (as ++ [a]) (bs ++ [b]) (n + subCost a b) := by
  induction h with
  | nil => exact .sub a b .nil
  | del x _ ih =>
    rw [Nat.add_right_comm]
    exact .del x ih
  | ins y _ ih =>
    rw [Nat.add_right_comm]
    exact .ins y ih
  | sub x y _ ih =>
    rw [Nat.add_right_comm]
    exact .sub x y ih

theorem tr_reverse {as bs : List Char} {n : Nat} (h : Tr as bs n) :
    Tr as.reverse bs.reverse n := by
  induction h with
  | nil => exact .nil
  | del a _ ih => rw [List.reverse_cons]; exact tr_snoc_del a ih
  | ins b _ ih => rw [List.reverse_cons]; exact tr_snoc_ins b ih
  | sub a b _ ih => rw [List.reverse_cons, List.reverse_cons]; exact tr_snoc_sub a b ih

theorem lev_reverse (as bs : List Char) : lev as.reverse bs.reverse = lev as bs := by
  have h1 : lev as.reverse bs.reverse ≤ lev as bs := lev_le_of_tr (tr_reverse (tr_lev as bs))
  have h2 := lev_le_of_tr (tr_reverse (tr_lev as.reverse bs.reverse))
  simp only [List.reverse_reverse] at h2
  omega

/-! ### The DP table computes `lev` on reversed prefixes -/

/-- Semantic row: for `r` the reversed prefix of `a` processed so far and `s`
the reversed prefix of `b` before the current column, the row of DP cells. -/
def rowSpec (r : List Char) (s : List Char) : List Char → List Nat
  | [] => [lev r s]
  | y :: ys => lev r s :: rowSpec r (y :: s) ys

theorem rowSpec_eq_cons (r s : List Char) (bs : List Char) :
    rowSpec r s bs =
      lev r s :: (match bs with | [] => [] | y :: ys => rowSpec r (y :: s) ys) := by
  cases bs <;> simp [rowSpec]

theorem fillRow_spec (c : Char) :
    ∀ (bs s : List Char) (r : List Char),
      fillRow c bs (rowSpec r s bs) (lev (c :: r) s) =
        (match bs with | [] => ([] : List Nat) | y :: ys => rowSpec (c :: r) (y :: s) ys) := by
  intro bs
  induction bs with
  | nil => intro s r; simp [rowSpec, fillRow]
  | cons y ys ih =>
    intro s r
    cases ys with
    | nil =>
      simp only [rowSpec, fillRow]
      rw [← lev_cons_cons]
    | cons z zs =>
      have ihy := ih (y :: s) r
      simp only [rowSpec] at ihy ⊢
      simp only [fillRow] at ihy ⊢
      rw [← lev_cons_cons]
      rw [ihy]

theorem levLoop_spec (bs : List Char) :
    ∀ (cs : List Char) (r : List Char),
      levLoop cs bs (rowSpec r [] bs) = rowSpec (cs.reverse ++ r) [] bs := by
  intro cs
  induction cs with
  | nil => intro r; simp [levLoop]
  | cons c cs ih =>
    intro r
    simp only [levLoop]
    have hrow : (match rowSpec r [] bs with | [] => 0 | r0 :: _ => r0) = lev r [] := by
      rw [rowSpec_eq_cons]
    have hfirst : (lev r [] + 1) = lev (c :: r) [] := by
      rw [lev_nil_right, lev_cons_nil]
    rw [hrow, hfirst, fillRow_spec c bs [] r, ← rowSpec_eq_cons (c :: r) [] bs, ih (c :: r)]
    simp [List.append_assoc]

theorem rowSpec_of_nil : ∀ (bs s : List Char), rowSpec [] s bs = List.range' s.length (bs.length + 1) := by
  intro bs
  induction bs with
  | nil => intro s; simp [rowSpec, lev_nil_left, List.range']
  | cons y ys ih =>
    intro s
    rw [rowSpec, List.range'_succ, ih (y :: s)]
    simp [lev_nil_left]

theorem rowSpec_getLastD : ∀ (bs r s : List Char) (d : Nat),
    (rowSpec r s bs).getLastD d = lev r (bs.reverse ++ s) := by
  intro bs
  induction bs with
  | nil => intro r s d; simp [rowSpec]
  | cons y ys ih =>
    intro r s d
    rw [rowSpec]
    simp only [List.getLastD_cons]
    rw [ih r (y :: s)]
    simp

/-- The row-by-row DP of nlp.ts computes the Levenshtein distance. -/
theorem levenshtein_eq_lev (a b : String) : levenshtein a b = lev a.data b.data := by
  rw [levenshtein]
  have h0 : List.range (b.data.length + 1) = rowSpec [] [] b.data := by
    rw [rowSpec_of_nil b.data []]
    simp [List.range_eq_range']
  rw [h0, levLoop_spec b.data a.data [], rowSpec_getLastD]
  simp only [List.append_nil]
  rw [lev_reverse]

/-! ## Tokeniser, stop-words and fuzzy matching (nlp.ts) -/

/-- JavaScript `\w`: `[A-Za-z0-9_]`. -/
def isWordChar (c : Char) : Bool := c.isAlphanum || c = Char.ofNat 95

/-- Length-scaled tolerance of `fuzzyMatch`:
`len ≤ 3 → 0, len 4-5 → 1, len 6-8 → 2, len ≥ 9 → 3`. -/
def fuzzyTolerance (len : Nat) : Nat :=
  if len ≤ 3 then 0 else if len ≤ 5 then 1 else if len ≤ 8 then 2 else 3

/-- Function `fuzzyMatch(word, target)` from nlp.ts: exact match short-circuits, then a
cheap length-difference rejection, then the edit-distance test. -/
def fuzzyMatch (word target : String) : Bool :=
  if word = target then true
  else
    let len := target.length
    let maxDist := fuzzyTolerance len
    if ((word.length : Int) - (len : Int)).natAbs > maxDist then false
    else decide (levenshtein word target ≤ maxDist)

/-- Function `fuzzyMatchAny(words, keywords)`: the keywords for which some word
fuzzy-matches (one credit per keyword, in keyword order). -/
def fuzzyMatchAny (words keywords : List String) : List String :=
  keywords.filter (fun kw => words.any (fun w => fuzzyMatch w kw))

/-- The stop-word set of nlp.ts (`STOPWORDS`). -/
def STOPWORDS : List String :=
  ["a", "an", "the", "this", "that", "these", "those",
   "i", "me", "my", "we", "us", "our", "you", "your", "he", "she", "it", "they", "them",
   "in", "on", "at", "to", "for", "of", "by", "from", "with", "about", "into",
   "and", "or", "but", "nor", "so", "yet",
   "is", "am", "are", "was", "were", "be", "been", "being",
   "do", "does", "did", "will", "would", "shall", "should",
   "can", "could", "may", "might", "must",
   "have", "has", "had", "having",
   "not", "no", "yes", "very", "just", "also", "too", "really", "please",
   "now", "then", "here", "there", "when", "where", "while",
   "what", "which", "who", "whom", "whose",
   "new", "old", "big", "small", "get", "got", "let", "go", "going",
   "make", "take", "come", "give", "tell", "say", "said",
   "if", "up", "out", "all", "some", "any", "each", "every",
   "much", "many", "more", "most", "other", "well",
   "its", "than", "like"]

/-- Split a character list on whitespace runs, dropping empty pieces
(`split(/\s+/).filter(Boolean)`). -/
def splitWsAux : List Char → List Char → List String
  | [], acc => if acc.isEmpty then [] else [String.mk acc.reverse]
  | c :: cs, acc =>
      if c.isWhitespace then
        if acc.isEmpty then splitWsAux cs [] else String.mk acc.reverse :: splitWsAux cs []
      else splitWsAux cs (c :: acc)

/-- Function `tokenize(text)` from nlp.ts: lowercase, normalise curly quotes to `'`,
replace every character outside `[\w\s'-]` by a space, split on whitespace. -/
def tokenize (text : String) : List String :=
  let lowered := text.data.map Char.toLower
  let normalized := lowered.map fun c =>
    if c = Char.ofNat 8216 ∨ c = Char.ofNat 8217 then Char.ofNat 39 else c
  let stripped := normalized.map fun c =>
    if isWordChar c || c.isWhitespace || c = Char.ofNat 39 || c = Char.ofNat 45 then c else ' '
  splitWsAux stripped []

/-- Function `tokenizeForFuzzy(text)`: tokens with stop-words removed. -/
def tokenizeForFuzzy (text : String) : List String :=
  (tokenize text).filter (fun t => !(STOPWORDS.contains t))

/-- Function `bigrams(tokens)`. -/
def bigrams : List String → List String
  | a :: b :: rest => (a ++ " " ++ b) :: bigrams (b :: rest)
  | _ => []

/-- Function `trigrams(tokens)`. -/
def trigrams : List String → List String
  | a :: b :: c :: rest => (a ++ " " ++ b ++ " " ++ c) :: trigrams (b :: c :: rest)
  | _ => []

example : tokenize "Will it rain, in Delhi?!" = ["will", "it", "rain", "in", "delhi"] := by decide
example : tokenizeForFuzzy "Will it rain, in Delhi?!" = ["rain", "delhi"] := by decide
example : bigrams ["how", "hot", "today"] = ["how hot", "hot today"] := by decide
example : trigrams ["will", "it", "rain", "today"] = ["will it rain", "it rain today"] := by decide
example : fuzzyMatch "wether" "weather" = true := by decide
example : fuzzyMatch "cat" "dog" = false := by decide
example : fuzzyMatch "a" "an" = false := by decide

/-- The edit distance is at least the length difference (justifies the
`Math.abs(word.length - len) > maxDist` shortcut of `fuzzyMatch`). -/
theorem levenshtein_ge_length_diff (a b : String) :
    ((a.length : Int) - (b.length : Int)).natAbs ≤ levenshtein a b := by
  have h := lev_length_bound a.data b.data
  rw [levenshtein_eq_lev]
  simp only [String.length] at *
  omega

/-- C8: `levenshtein` is a non-negative-integer-valued metric: identity of
indiscernibles on the diagonal, symmetry, and the triangle inequality. -/
theorem C8_levenshtein_metric (a b c : String) :
    0 ≤ levenshtein a b ∧ levenshtein a a = 0 ∧ levenshtein a b = levenshtein b a ∧
      levenshtein a c ≤ levenshtein a b + levenshtein b c := by
  refine ⟨Nat.zero_le _, ?_, ?_, ?_⟩ <;> simp only [levenshtein_eq_lev]
  · exact lev_self _
  · exact lev_comm _ _
  · exact lev_triangle _ _ _

/-- C9: `fuzzyMatch(word, target)` is true exactly when `word = target` or the
edit distance is within the length-scaled tolerance of `target` (0 for length
≤ 3, 1 for 4–5, 2 for 6–8, 3 for ≥ 9); when the length difference exceeds the
tolerance the result is false; and the three documented examples hold. -/
theorem C9_fuzzyMatch_spec :
    (∀ word target : String,
        (fuzzyMatch word target = true ↔
          word = target ∨ levenshtein word target ≤ fuzzyTolerance target.length) ∧
        (((word.length : Int) - (target.length : Int)).natAbs > fuzzyTolerance target.length →
          fuzzyMatch word target = false)) ∧
      fuzzyMatch "wether" "weather" = true ∧ fuzzyMatch "cat" "dog" = false ∧
      fuzzyMatch "a" "an" = false := by
  refine ⟨fun word target => ?_, by decide, by decide, by decide⟩
  by_cases heq : word = target
  · subst heq
    exact ⟨by simp [fuzzyMatch], fun hgt => absurd hgt (by omega)⟩
  · have hlb := levenshtein_ge_length_diff word target
    by_cases hlen :
        ((word.length : Int) - (target.length : Int)).natAbs > fuzzyTolerance target.length
    · have hfalse : fuzzyMatch word target = false := by
        rw [fuzzyMatch, if_neg heq, if_pos hlen]
      refine ⟨?_, fun _ => hfalse⟩
      rw [hfalse]
      simp only [Bool.false_eq_true, false_iff]
      push_neg
      exact ⟨heq, by omega⟩
    · have heval : fuzzyMatch word target =
          decide (levenshtein word target ≤ fuzzyTolerance target.length) := by
        rw [fuzzyMatch, if_neg heq, if_neg hlen]
      rw [heval]
      refine ⟨?_, fun h => absurd h hlen⟩
      simp only [decide_eq_true_eq]
      constructor
      · exact Or.inr
      · rintro (h | h)
        · exact absurd h heq
        · exact h

/-- Witness for C9: the length-difference shortcut rejects `("a", "abcdefgh")`
(difference 7 exceeds the tolerance 2 for a length-8 target). -/
theorem C9_fuzzyMatch_spec_witness : fuzzyMatch "a" "abcdefgh" = false :=
  (C9_fuzzyMatch_spec.1 "a" "abcdefgh").2 (by decide)

/-! ## A small regular-expression engine for the cluster patterns

The intent-cluster patterns of nlp.ts use JavaScript regexes built only from
literals (possibly containing spaces), alternation, optional pieces (`s?`,
`(the )?`), `\w*`, `.*`, word boundaries `\b` and the start anchor `^`, all
with the `i` flag except the all-digit year pattern.  `Rx` models exactly
these constructs; `rxTest r s` decides whether `r` matches anywhere in the
lowercased `s` (equivalent to the `i` flag because every literal below is
lowercase, and lowercasing never changes word-char status or digits). -/

inductive Rx
  | fail
  | eps
  | lit (cs : List Char)
  | cat (a b : Rx)
  | alt (a b : Rx)
  | opt (a : Rx)
  | wstar
  | astar
  | bnd
  | bos
deriving Repr

/-- Match a literal, tracking the previous character for `\b`. -/
def litM : List Char → Option Char → List Char → (Option Char → List Char → Bool) → Bool
  | [], p, s, k => k p s
  | _ :: _, _, [], _ => false
  | c :: cs, _, x :: xs, k => x == c && litM cs (some x) xs k

/-- Construct `\w*`: zero or more word characters (greedy or not is irrelevant for a
boolean match; all continuations are tried). -/
def wstarM (k : Option Char → List Char → Bool) : Option Char → List Char → Bool
  | p, [] => k p []
  | p, c :: cs => k p (c :: cs) || (isWordChar c && wstarM k (some c) cs)

/-- Dot `.`: any character except the JavaScript line terminators. -/
def isDotChar (c : Char) : Bool :=
  !(c = Char.ofNat 10 || c = Char.ofNat 13 || c = Char.ofNat 8232 || c = Char.ofNat 8233)

/-- Construct `.*`: zero or more non-terminator characters. -/
def astarM (k : Option Char → List Char → Bool) : Option Char → List Char → Bool
  | p, [] => k p []
  | p, c :: cs => k p (c :: cs) || (isDotChar c && astarM k (some c) cs)

/-- Assertion `\b`: word/non-word transition between the previous character and the
head of the remaining input. -/
def isBoundary (p : Option Char) (s : List Char) : Bool :=
  (match p with | none => false | some c => isWordChar c) !=
    (match s with | [] => false | c :: _ => isWordChar c)

/-- Continuation-passing matcher for `Rx` at a fixed position. -/
def Rx.m : Rx → Option Char → List Char → (Option Char → List Char → Bool) → Bool
  | .fail, _, _, _ => false
  | .eps, p, s, k => k p s
  | .lit cs, p, s, k => litM cs p s k
  | .cat a b, p, s, k => a.m p s fun q t => b.m q t k
  | .alt a b, p, s, k => a.m p s k || b.m p s k
  | .opt a, p, s, k => a.m p s k || k p s
  | .wstar, p, s, k => wstarM k p s
  | .astar, p, s, k => astarM k p s
  | .bnd, p, s, k => isBoundary p s && k p s
  | .bos, p, s, k => p.isNone && k p s

/-- Try the pattern at every start position. -/
def scanM (r : Rx) : Option Char → List Char → Bool
  | p, [] => r.m p [] fun _ _ => true
  | p, c :: cs => (r.m p (c :: cs) fun _ _ => true) || scanM r (some c) cs

/-- Test `pattern.test(rawMessage)` for the `i`-flagged cluster patterns. -/
def rxTest (r : Rx) (s : String) : Bool := scanM r none (s.data.map Char.toLower)

def rlit (s : String) : Rx := .lit s.data

def rOr (l : List Rx) : Rx := l.foldr .alt .fail

def rcat (l : List Rx) : Rx := l.foldr .cat .eps

/-- Shape `\b(w1|w2|…)\b` for plain word alternatives. -/
def rWords (ws : List String) : Rx := rOr (ws.map rlit)

example : rxTest (rcat [.bnd, rWords ["rain", "snow"], .bnd]) "Will it RAIN today?" = true := by
  decide
example : rxTest (rcat [.bnd, rWords ["rain"], .bnd]) "raining" = false := by decide
example : rxTest (rcat [.bnd, .cat (rlit "rain") .wstar, .bnd]) "raining" = true := by decide
example : rxTest (rcat [.bos, rlit "hi"]) "oh hi" = false := by decide
example : rxTest (rcat [.bos, rlit "hi"]) "hi there" = true := by decide

/-! ## Intent clusters (nlp.ts `WEATHER_CLUSTER` / `SEARCH_CLUSTER` / `GENERAL_CLUSTER`) -/

structure IntentCluster where
  keywords : List String
  phrases : List String
  patterns : List Rx
  weight : ℚ

def WEATHER_CLUSTER : IntentCluster where
  keywords :=
    ["weather", "forecast", "temperature", "climate",
     "rain", "raining", "rainy", "rainfall",
     "snow", "snowing", "snowy", "snowfall", "snowstorm",
     "storm", "stormy", "thunderstorm", "lightning", "thunder",
     "sunny", "sunshine", "sun",
     "cloudy", "clouds", "overcast", "fog", "foggy", "haze", "hazy", "mist", "misty",
     "wind", "windy", "windspeed", "breeze", "breezy", "gust", "gusty",
     "humid", "humidity", "moisture",
     "drizzle", "sleet", "hail", "hailstorm",
     "freezing", "frost", "frosty", "chilly", "cold", "hot", "warm",
     "celsius", "fahrenheit", "degrees",
     "sunrise", "sunset",
     "umbrella", "raincoat", "jacket"]
  phrases :=
    ["how hot", "how cold", "how warm", "how humid", "how windy",
     "is it raining", "is it snowing", "is it sunny", "is it cloudy",
     "will it rain", "will it snow", "will it snowfall",
     "going to rain", "going to snow", "chance of rain", "chance of snow",
     "do i need", "should i carry", "should i bring",
     "what\x27s the temperature", "whats the temperature",
     "tell me weather", "tell me the weather",
     "weather update", "weather report", "weather today",
     "weather forecast", "weather condition", "weather conditions",
     "current temperature", "feels like"]
  patterns :=
    [rcat [.bnd,
       rOr [rlit "weather", rlit "forecast", rlit "temperature",
            .cat (rlit "rain") .wstar, .cat (rlit "snow") .wstar, rlit "storm",
            rlit "sunny", rlit "cloudy", .cat (rlit "humid") .wstar,
            .cat (rlit "wind") .wstar, rlit "sunrise", rlit "sunset",
            .cat (rlit "hail") .wstar, .cat (rlit "frost") .wstar,
            .cat (rlit "freez") .wstar], .bnd],
     rcat [.bnd, rlit "how ",
       rWords ["hot", "cold", "warm", "humid", "windy", "chilly", "freezing"], .bnd],
     rcat [.bnd, rlit "is it ",
       rWords ["raining", "snowing", "sunny", "cloudy", "windy", "cold", "hot", "warm",
               "freezing", "chilly"], .bnd],
     rcat [.bnd, rlit "will it ",
       rOr [rlit "rain", rlit "snow", rlit "snowfall", rlit "hail", rlit "storm",
            rlit "freeze",
            .cat (rlit "be ") (rWords ["cold", "hot", "warm", "sunny", "cloudy", "rainy"])],
       .bnd],
     rcat [.bnd, rlit "going to ", rWords ["rain", "snow", "storm", "hail"], .bnd],
     rcat [.bnd,
       rOr [rlit "do i need", .cat (rlit "should i ") (rWords ["carry", "bring", "take"])],
       rlit " ", .astar,
       rWords ["umbrella", "jacket", "raincoat", "sweater", "coat"], .bnd]]
  weight := 1

def SEARCH_CLUSTER : IntentCluster where
  keywords :=
    ["search", "google", "lookup", "look",
     "news", "headlines", "happening", "happened", "breaking",
     "announcement", "update", "updates",
     "latest", "newest", "recent", "current", "live", "trending",
     "realtime", "real-time",
     "score", "scores", "standings", "championship", "tournament",
     "match", "fixture", "fixtures", "league",
     "stock", "stocks", "shares", "crypto", "bitcoin", "ethereum",
     "solana", "market", "nasdaq", "sensex", "nifty",
     "price", "pricing", "rate", "rates",
     "who", "founder", "ceo",
     "released", "launched", "available", "buy", "purchase"]
  phrases :=
    ["look up", "find out", "look for", "search for",
     "what happened", "what\x27s happening", "whats happening",
     "any news", "latest news", "breaking news",
     "right now", "just now",
     "this week", "this month",
     "stock price", "share price", "exchange rate",
     "who is", "who are", "who was", "who won",
     "how much does", "how much is"]
  patterns :=
    [rcat [.bnd, rWords ["search", "look up", "find out", "google", "look for"], .bnd],
     rcat [.bnd, rWords ["latest", "newest", "recent", "trending", "breaking"], .bnd],
     rcat [.bnd, rWords ["news", "headlines", "happened", "happening", "announcement"], .bnd],
     rcat [.bnd,
       rWords ["today", "yesterday", "this week", "this month", "right now", "recently"],
       .bnd],
     rcat [.bnd, rWords ["2024", "2025", "2026", "2027"], .bnd],
     rcat [.bnd, rWords ["score", "scores", "standings", "championship", "tournament"], .bnd],
     rcat [.bnd,
       rWords ["stock", "crypto", "bitcoin", "market", "nasdaq", "sensex", "nifty"], .bnd],
     rcat [.bnd, rlit "who ",
       rOr [rlit "is", rlit "are", rlit "was", rlit "won",
            .cat (rlit "lead") (.opt (rlit "s")), .cat (rlit "run") (.opt (rlit "s")),
            .cat (rlit "own") (.opt (rlit "s")), rlit "founded"], .bnd],
     rcat [.bnd, rlit "what ", rWords ["is", "are"], rlit " ", .opt (rlit "the "),
       rWords ["current", "latest", "recent", "new"], .bnd],
     rcat [.bnd, rWords ["available", "released", "launched", "out now"], .bnd]]
  weight := 1

def GENERAL_CLUSTER : IntentCluster where
  keywords :=
    ["write", "create", "generate", "draft", "compose", "essay", "poem", "story",
     "code", "program", "function", "debug", "refactor", "script", "algorithm",
     "typescript", "javascript", "python", "java", "react", "html", "css",
     "explain", "teach", "learn", "understand", "definition", "meaning", "concept",
     "translate", "summarize", "paraphrase", "rewrite", "proofread",
     "calculate", "compute", "solve", "math", "equation", "formula", "integral",
     "review", "analyze", "compare", "evaluate", "critique",
     "hello", "hi", "hey", "thanks", "goodbye"]
  phrases :=
    ["help me understand", "how does it work", "what does it mean",
     "write a", "create a", "generate a", "make a", "draft a",
     "can you explain", "can you help", "can you write",
     "tell me about", "teach me",
     "fix this", "debug this", "refactor this",
     "translate this", "summarize this",
     "who are you", "what are you", "what can you do"]
  patterns :=
    [rcat [.bnd, rWords ["write", "create", "generate", "make", "draft", "compose"], .bnd],
     rcat [.bnd, rWords ["explain", "teach", "help me understand"], .bnd],
     rcat [.bnd,
       rWords ["code", "program", "function", "debug", "fix", "refactor", "script"], .bnd],
     rcat [.bnd,
       rWords ["translate", "summarize", "paraphrase", "rewrite", "proofread"], .bnd],
     rcat [.bnd, rWords ["calculate", "compute", "solve", "math", "equation", "formula"],
       .bnd],
     rcat [.bnd, rWords ["review", "analyze", "compare", "evaluate", "critique"], .bnd],
     rcat [.bos,
       rOr [rlit "hi", rlit "hello", rlit "hey", rlit "thanks", rlit "thank you",
            rlit "who are you",
            .cat (rlit "what ") (.cat (rWords ["are", "can"]) (rlit " you"))]]]
  weight := 9 / 10

/-! ## Multi-signal intent scoring (`scoreIntent` in nlp.ts) -/

/-- Substring test `haystack.includes(needle)` on character lists. -/
def isSubstring (needle : List Char) : List Char → Bool
  | [] => needle.isPrefixOf []
  | c :: cs => needle.isPrefixOf (c :: cs) || isSubstring needle cs

/-- Step 1 of `scoreIntent`: the cluster patterns matching the raw message. -/
def patternHits (rawMessage : String) (cluster : IntentCluster) : Nat :=
  (cluster.patterns.filter fun p => rxTest p rawMessage).length

/-- Step 2 of `scoreIntent`: lowercased phrases found among the message
bigrams/trigrams (a two-word phrase checks the bigrams, all others the
trigrams, exactly as `phraseTokens.length === 2` does). -/
def phraseHits (messageBigrams messageTrigrams : List String)
    (cluster : IntentCluster) : Nat :=
  ((cluster.phrases.map fun p => String.mk (p.data.map Char.toLower)).filter fun phrase =>
    (if phrase.data.count (Char.ofNat 32) = 1 then messageBigrams else messageTrigrams).contains
      phrase).length

/-- Step 3 of `scoreIntent`: keywords fuzzy-matched by some stop-word-filtered
token (one credit per keyword). -/
def fuzzyHitsList (tokens : List String) (cluster : IntentCluster) : List String :=
  fuzzyMatchAny (tokens.filter fun t => !(STOPWORDS.contains t)) cluster.keywords

/-- Step 4 of `scoreIntent`: keywords of length ≥ 5 contained as a substring of
the lowercased message and not already credited by fuzzy matching. -/
def substrHits (tokens : List String) (rawMessage : String) (cluster : IntentCluster) : Nat :=
  (cluster.keywords.filter fun kw =>
    kw.length ≥ 5 && isSubstring kw.data (rawMessage.data.map Char.toLower) &&
      !((fuzzyHitsList tokens cluster).contains kw)).length

/-- Function `scoreIntent(tokens, bigrams, trigrams, rawMessage, cluster)`: the composite
score accumulates 3.0 × weight per matching regex pattern, 2.5 × weight per
phrase hit, 1.5 × weight per fuzzy keyword hit and 0.5 × weight per substring
hit.  (The debug `signals` trace of the source carries no information beyond
the hit lists and is not modelled.) -/
def scoreIntent (tokens messageBigrams messageTrigrams : List String)
    (rawMessage : String) (cluster : IntentCluster) : ℚ :=
  3 * cluster.weight * patternHits rawMessage cluster +
    2.5 * cluster.weight * phraseHits messageBigrams messageTrigrams cluster +
    1.5 * cluster.weight * (fuzzyHitsList tokens cluster).length +
    0.5 * cluster.weight * substrHits tokens rawMessage cluster

/-- Score of one message against one cluster, with the tokenisation pipeline
of the classifier (raw tokens for n-grams; `scoreIntent` strips stop-words
itself before fuzzy matching). -/
def clusterScore (msg : String) (cluster : IntentCluster) : ℚ :=
  let tokens := tokenize msg
  scoreIntent tokens (bigrams tokens) (trigrams tokens) msg cluster

/-- Modelled from the spec: the Deterministic Classifier's winner.  The live
code never calls `scoreIntent` (the deterministic engine is implemented in
nlp.ts but not wired into the decision path), so the winner rule — "the
winning agent is the one with the strictly highest total score, with a
documented tie-break of first cluster evaluated wins (clusters are evaluated
in a fixed declared order: weather, search, general)" — is taken from §4.2 of
the spec: the running best is replaced only by a strictly greater score. -/
def detWinner (msg : String) : String :=
  let sw := clusterScore msg WEATHER_CLUSTER
  let ss := clusterScore msg SEARCH_CLUSTER
  let sg := clusterScore msg GENERAL_CLUSTER
  if ss > sw then if sg > ss then "general" else "web_search"
  else if sg > sw then "general" else "weather"



theorem WEATHER_CLUSTER_weight : WEATHER_CLUSTER.weight = 1 := rfl

theorem SEARCH_CLUSTER_weight : SEARCH_CLUSTER.weight = 1 := rfl

theorem GENERAL_CLUSTER_weight : GENERAL_CLUSTER.weight = 9 / 10 := rfl

/-- Closed form of `clusterScore` once the four hit counts are known
(the counts themselves are kernel-computable naturals). -/
theorem clusterScore_eval (msg : String) (c : IntentCluster) (p ph f sb : Nat)
    (hp : patternHits msg c = p)
    (hph : phraseHits (bigrams (tokenize msg)) (trigrams (tokenize msg)) c = ph)
    (hf : (fuzzyHitsList (tokenize msg) c).length = f)
    (hsb : substrHits (tokenize msg) msg c = sb) :
    clusterScore msg c =
      3 * c.weight * p + 2.5 * c.weight * ph + 1.5 * c.weight * f + 0.5 * c.weight * sb := by
  simp only [clusterScore, scoreIntent]
  rw [hp, hph, hf, hsb]

theorem score_pos_aux (w : ℚ) (p ph f sb : Nat) (hw : 0 < w) (hf : 1 ≤ f) :
    0 < 3 * w * p + 2.5 * w * ph + 1.5 * w * f + 0.5 * w * sb := by
  have t1 : (0:ℚ) ≤ 3 * w * p :=
    mul_nonneg (mul_nonneg (by norm_num) hw.le) (Nat.cast_nonneg _)
  have t2 : (0:ℚ) ≤ 2.5 * w * ph :=
    mul_nonneg (mul_nonneg (by norm_num) hw.le) (Nat.cast_nonneg _)
  have t4 : (0:ℚ) ≤ 0.5 * w * sb :=
    mul_nonneg (mul_nonneg (by norm_num) hw.le) (Nat.cast_nonneg _)
  have t3 : (0:ℚ) < 1.5 * w * f := by
    apply mul_pos (mul_pos (by norm_num) hw)
    exact_mod_cast Nat.lt_of_lt_of_le Nat.zero_lt_one hf
  linarith

/-- A keyword present verbatim among the stop-word-filtered tokens earns the
cluster a strictly positive score. -/
theorem clusterScore_pos (msg : String) (c : IntentCluster) (hw : 0 < c.weight)
    (hkw : ∃ kw ∈ c.keywords, kw ∈ tokenizeForFuzzy msg) :
    0 < clusterScore msg c := by
  obtain ⟨kw, hk, ht⟩ := hkw
  have hmem : kw ∈ fuzzyHitsList (tokenize msg) c := by
    simp only [fuzzyHitsList, fuzzyMatchAny, List.mem_filter]
    refine ⟨hk, ?_⟩
    rw [List.any_eq_true]
    refine ⟨kw, ?_, by simp [fuzzyMatch]⟩
    simpa [tokenizeForFuzzy] using ht
  have hlen : 1 ≤ (fuzzyHitsList (tokenize msg) c).length :=
    List.length_pos_of_mem hmem
  simp only [clusterScore, scoreIntent]
  exact score_pos_aux c.weight _ _ _ _ hw hlen

/-- C3 counterexample: the message `"weather news latest breaking"` contains the
exact keyword `"weather"` of the weather cluster among its stop-word-filtered
tokens (no stop-word collision), yet the deterministic winner is the search
agent, because the same message also scores higher for the search cluster. -/
theorem C3_counterexample :
    ("weather" ∈ WEATHER_CLUSTER.keywords ∧
      "weather" ∈ tokenizeForFuzzy "weather news latest breaking") ∧
    detWinner "weather news latest breaking" ≠ "weather" := by
  have hw : clusterScore "weather news latest breaking" WEATHER_CLUSTER = 9/2 := by
    rw [clusterScore_eval _ _ 1 0 1 0 (by decide) (by decide) (by decide) (by decide),
      WEATHER_CLUSTER_weight]
    norm_num
  have hs : clusterScore "weather news latest breaking" SEARCH_CLUSTER = 12 := by
    rw [clusterScore_eval _ _ 2 0 4 0 (by decide) (by decide) (by decide) (by decide),
      SEARCH_CLUSTER_weight]
    norm_num
  have hg : clusterScore "weather news latest breaking" GENERAL_CLUSTER = 0 := by
    rw [clusterScore_eval _ _ 0 0 0 0 (by decide) (by decide) (by decide) (by decide),
      GENERAL_CLUSTER_weight]
    norm_num
  refine ⟨⟨by decide, by decide⟩, ?_⟩
  simp only [detWinner, hw, hs, hg]
  rw [if_pos (by norm_num), if_neg (by norm_num)]
  decide

/-- C3 (amended): for a message containing an exact keyword of one cluster
among its stop-word-filtered tokens, the Deterministic Classifier's winner
(strictly highest `scoreIntent` total, ties to the first cluster in the order
weather, search, general) equals that cluster's agent, provided the other two
clusters score zero on the message.  (As stated the claim is false: a message
can contain an exact keyword of one cluster and still give another cluster a
higher total — see the counterexample.) -/
theorem C3_det_classifier_amended (msg : String) :
    ((clusterScore msg SEARCH_CLUSTER = 0 ∧ clusterScore msg GENERAL_CLUSTER = 0 ∧
        (∃ kw ∈ WEATHER_CLUSTER.keywords, kw ∈ tokenizeForFuzzy msg)) →
      detWinner msg = "weather") ∧
    ((clusterScore msg WEATHER_CLUSTER = 0 ∧ clusterScore msg GENERAL_CLUSTER = 0 ∧
        (∃ kw ∈ SEARCH_CLUSTER.keywords, kw ∈ tokenizeForFuzzy msg)) →
      detWinner msg = "web_search") ∧
    ((clusterScore msg WEATHER_CLUSTER = 0 ∧ clusterScore msg SEARCH_CLUSTER = 0 ∧
        (∃ kw ∈ GENERAL_CLUSTER.keywords, kw ∈ tokenizeForFuzzy msg)) →
      detWinner msg = "general") := by
  refine ⟨fun ⟨h1, h2, hkw⟩ => ?_, fun ⟨h1, h2, hkw⟩ => ?_, fun ⟨h1, h2, hkw⟩ => ?_⟩
  · have hpos := clusterScore_pos msg WEATHER_CLUSTER
      (by rw [WEATHER_CLUSTER_weight]; norm_num) hkw
    simp only [detWinner, h1, h2]
    rw [if_neg (not_lt.mpr hpos.le), if_neg (not_lt.mpr hpos.le)]
  · have hpos := clusterScore_pos msg SEARCH_CLUSTER
      (by rw [SEARCH_CLUSTER_weight]; norm_num) hkw
    simp only [detWinner, h1, h2]
    rw [if_pos hpos, if_neg (not_lt.mpr hpos.le)]
  · have hpos := clusterScore_pos msg GENERAL_CLUSTER
      (by rw [GENERAL_CLUSTER_weight]; norm_num) hkw
    simp only [detWinner, h1, h2]
    rw [if_neg (lt_irrefl 0), if_pos hpos]

/-- Witness for the amended C3: the single-keyword message `"weather"` scores
zero for the search and general clusters and is routed to the weather agent. -/
theorem C3_det_classifier_amended_witness : detWinner "weather" = "weather" := by
  have hs : clusterScore "weather" SEARCH_CLUSTER = 0 := by
    rw [clusterScore_eval _ _ 0 0 0 0 (by decide) (by decide) (by decide) (by decide),
      SEARCH_CLUSTER_weight]
    norm_num
  have hg : clusterScore "weather" GENERAL_CLUSTER = 0 := by
    rw [clusterScore_eval _ _ 0 0 0 0 (by decide) (by decide) (by decide) (by decide),
      GENERAL_CLUSTER_weight]
    norm_num
  exact (C3_det_classifier_amended "weather").1 ⟨hs, hg, ⟨"weather", by decide, by decide⟩⟩

/-! ## Delegated classifier (`llmRouteToAgent` in llmRouter.ts)

The external model call is an oracle: it either rejects (the `try` block's
`await` throws) or resolves with a response text.  `JSON.parse` is a platform
primitive, so its outcome on the extracted JSON slice is part of the modelled
behaviour: either it throws or it yields an object, of which only the four
accessed fields matter.  Field access on a parsed JavaScript object yields an
arbitrary JSON value (or `undefined`), modelled by `JsVal`. -/

inductive JsVal
  | vStr (s : String)
  | vNum (q : ℚ)
  | vBool (b : Bool)
  | vNull
  | vUndef
  | vObj
deriving DecidableEq

/-- The four fields of the parsed routing object that the code reads
(a missing field reads as `undefined`). -/
structure ParsedObj where
  agent : JsVal := .vUndef
  confidence : JsVal := .vUndef
  reason : JsVal := .vUndef
  extractedCity : JsVal := .vUndef
deriving DecidableEq

/-- One observable behaviour of the `generateText` + `JSON.parse` pipeline. -/
inductive LLMCall
  | throws
  | returns (text : String) (parse : Except Unit ParsedObj)

/-- Case-insensitive literal prefix match, returning the rest of the input. -/
def startsWithCI : List Char → List Char → Option (List Char)
  | [], s => some s
  | _ :: _, [] => none
  | p :: ps, c :: cs => if c.toLower = p then startsWithCI ps cs else none

def dropWs (s : List Char) : List Char := s.dropWhile Char.isWhitespace

/-- One global replace of `tag ++ \s*` by the empty string, scanning left to
right (the semantics of `.replace(/tag\s*/gi, "")` for the two fence tags).
The fuel argument is the input length; every step consumes at least one
character, so the fuel never runs out (kernel-executable rendering of a
left-to-right scan). -/
def replaceTagAux (t0 : Char) (trest : List Char) : Nat → List Char → List Char
  | 0, s => s
  | _ + 1, [] => []
  | fuel + 1, c :: cs =>
      if c.toLower = t0 then
        match startsWithCI trest cs with
        | some rest => replaceTagAux t0 trest fuel (dropWs rest)
        | none => c :: replaceTagAux t0 trest fuel cs
      else c :: replaceTagAux t0 trest fuel cs

def replaceTag (t0 : Char) (trest : List Char) (s : List Char) : List Char :=
  replaceTagAux t0 trest s.length s

def trimChars (s : List Char) : List Char :=
  ((s.dropWhile Char.isWhitespace).reverse.dropWhile Char.isWhitespace).reverse

/-- Cleaning `text.replace(/⋯json\s*/gi, "").replace(/⋯\s*/g, "").trim()` of
llmRouter.ts, where `⋯` is a triple backtick (written via `Char.ofNat 96`). -/
def cleanedText (text : String) : List Char :=
  trimChars (replaceTag (Char.ofNat 96) ((String.mk [Char.ofNat 96, Char.ofNat 96]).data)
    (replaceTag (Char.ofNat 96)
      ((String.mk [Char.ofNat 96, Char.ofNat 96, 'j', 's', 'o', 'n']).data) text.data))

/-- The slice `cleanedText.match(/\x7b[\s\S]*\x7d/)` is non-null iff an opening brace is
followed (strictly later) by a closing brace. -/
def hasJsonMatch (cs : List Char) : Bool :=
  match cs.dropWhile (fun c => !(c = Char.ofNat 123)) with
  | [] => false
  | _ :: rest => rest.contains (Char.ofNat 125)

def validAgents : List String := ["weather", "web_search", "code_assistant", "general"]

/-- JavaScript `v || default` for an expected-string field (`""` is falsy;
non-string truthy values cannot occur for these fields per the declared
output contract and are folded to the default). -/
def jsStrOr (v : JsVal) (d : String) : String :=
  match v with
  | .vStr s => if s = "" then d else s
  | _ => d

/-- JavaScript `v || undefined` for an expected-string field. -/
def jsStrOpt (v : JsVal) : Option String :=
  match v with
  | .vStr s => if s = "" then none else some s
  | _ => none

structure LLMRoutingResult where
  agent : String
  confidence : ℚ
  reason : String
  extractedCity : Option String
deriving DecidableEq

/-- The `fallback(reason)` helper of llmRouter.ts. -/
def fallback (reason : String) : LLMRoutingResult :=
  { agent := "general", confidence := 0.5, reason := "Fallback: " ++ reason,
    extractedCity := none }

/-- Function `llmRouteToAgent` of llmRouter.ts over one modelled call behaviour:
clean the response, find the JSON slice, parse it, validate the agent. -/
def llmRouteToAgent : LLMCall → LLMRoutingResult
  | .throws => fallback "LLM routing error"
  | .returns text parse =>
      if hasJsonMatch (cleanedText text) then
        match parse with
        | .error _ => fallback "LLM routing error"
        | .ok obj =>
            match obj.agent with
            | .vStr a =>
                if a ∈ validAgents then
                  { agent := a
                    confidence := match obj.confidence with | .vNum q => q | _ => 0.8
                    reason := jsStrOr obj.reason "LLM classification"
                    extractedCity := jsStrOpt obj.extractedCity }
                else fallback "Invalid agent in response"
            | _ => fallback "Invalid agent in response"
      else fallback "No JSON in LLM response"

/-! ## Router (`routeToAgent` in agentRouter.ts) -/

/-- Registry `AVAILABLE_AGENTS`: id, display name, description. -/
def AVAILABLE_AGENTS : List (String × String × String) :=
  [("web_search", "Web Search Agent",
    "Searches the web for current, real-time information, latest news, live data, recent events, and up-to-date facts"),
   ("weather", "Weather Agent",
    "Provides instant, accurate weather data including current conditions, hourly forecasts, sunrise/sunset, and more"),
   ("code_assistant", "Code Assistant",
    "Executes code (Python/JS) in a sandbox and generates UI components, landing pages, and webpages with live preview"),
   ("general", "General Assistant",
    "Handles general conversation, coding help, creative writing, analysis, math, and knowledge-based questions")]

structure RoutingResult where
  agent : String
  confidence : ℚ
  reason : String
  agentName : String
  extractedCity : Option String
deriving DecidableEq

/-- Function `routeToAgent`: wrap the delegated classifier, attach display metadata
(`AVAILABLE_AGENTS[agent] || AVAILABLE_AGENTS.general`), normalise the shape. -/
def routeToAgent (b : LLMCall) : RoutingResult :=
  let llmResult := llmRouteToAgent b
  let agentMeta :=
    match AVAILABLE_AGENTS.find? (fun e => e.1 == llmResult.agent) with
    | some e => e.2
    | none =>
      ("General Assistant",
       "Handles general conversation, coding help, creative writing, analysis, math, and knowledge-based questions")
  { agent := llmResult.agent
    confidence := llmResult.confidence
    reason := llmResult.reason
    agentName := agentMeta.1
    extractedCity := match llmResult.extractedCity with
      | some s => if s = "" then none else some s
      | none => none }

/-- C1: the delegated classifier never throws and always lands on one of the
four canonical agents; each failure path (call throws, no JSON object in the
response, `JSON.parse` throws, invalid `agent` field) yields exactly the
fallback decision `agent=general, confidence=0.5`, with `reason` the string
`"Fallback: "` followed by the specific cause; hence the router also always
returns a canonical agent tag. -/
theorem C1_router_always_canonical (b : LLMCall) :
    (llmRouteToAgent b).agent ∈ validAgents ∧
    (routeToAgent b).agent ∈ validAgents ∧
    (b = .throws → llmRouteToAgent b = fallback "LLM routing error") ∧
    (∀ text parse, b = .returns text parse →
      (hasJsonMatch (cleanedText text) = false →
        llmRouteToAgent b = fallback "No JSON in LLM response") ∧
      (hasJsonMatch (cleanedText text) = true → parse = .error () →
        llmRouteToAgent b = fallback "LLM routing error") ∧
      (∀ obj, hasJsonMatch (cleanedText text) = true → parse = .ok obj →
        (∀ a, obj.agent = .vStr a → a ∉ validAgents →
          llmRouteToAgent b = fallback "Invalid agent in response") ∧
        ((∀ a, obj.agent ≠ .vStr a) →
          llmRouteToAgent b = fallback "Invalid agent in response"))) := by
  have hro : ∀ c : LLMCall, (routeToAgent c).agent = (llmRouteToAgent c).agent :=
    fun _ => rfl
  have hmain : (llmRouteToAgent b).agent ∈ validAgents := by
    cases b with
    | throws => simp [llmRouteToAgent, fallback, validAgents]
    | returns text parse =>
      simp only [llmRouteToAgent]
      by_cases hj : hasJsonMatch (cleanedText text)
      · rw [if_pos hj]
        cases parse with
        | error e => simp [fallback, validAgents]
        | ok obj =>
          cases hag : obj.agent with
          | vStr a =>
            by_cases hv : a ∈ validAgents
            · simp only [hag]
              rw [if_pos hv]
              exact hv
            · have hv' : ¬(a = "weather" ∨ a = "web_search" ∨ a = "code_assistant" ∨
                  a = "general") := by simpa [validAgents] using hv
              simp [hag, hv', fallback, validAgents]
          | vNum q => simp [hag, fallback, validAgents]
          | vBool v => simp [hag, fallback, validAgents]
          | vNull => simp [hag, fallback, validAgents]
          | vUndef => simp [hag, fallback, validAgents]
          | vObj => simp [hag, fallback, validAgents]
      · simp [hj, fallback, validAgents]
  refine ⟨hmain, by rw [hro]; exact hmain, fun hb => by subst hb; rfl, ?_⟩
  intro text parse hb
  subst hb
  refine ⟨fun hj => by simp [llmRouteToAgent, hj], fun hj hperr => ?_, fun obj hj hpok => ?_⟩
  · subst hperr
    simp [llmRouteToAgent, hj]
  · subst hpok
    refine ⟨fun a hag hv => ?_, fun hnostr => ?_⟩
    · simp [llmRouteToAgent, hj, hag, hv]
    · cases hag : obj.agent with
      | vStr a => exact absurd hag (hnostr a)
      | vNum q => simp [llmRouteToAgent, hj, hag]
      | vBool v => simp [llmRouteToAgent, hj, hag]
      | vNull => simp [llmRouteToAgent, hj, hag]
      | vUndef => simp [llmRouteToAgent, hj, hag]
      | vObj => simp [llmRouteToAgent, hj, hag]

/-- Witness for C1: a throwing model call produces exactly the fallback
decision, and its agent is canonical. -/
theorem C1_router_always_canonical_witness :
    llmRouteToAgent .throws = fallback "LLM routing error" ∧
      (llmRouteToAgent .throws).agent ∈ validAgents :=
  ⟨(C1_router_always_canonical .throws).2.2.1 rfl, (C1_router_always_canonical .throws).1⟩

/-! ## C4: confidence range -/

/-- The parsed object the happy path of `llmRouteToAgent` works with, if any. -/
def parsedOf : LLMCall → Option ParsedObj
  | .throws => none
  | .returns text parse =>
      if hasJsonMatch (cleanedText text) then
        match parse with
        | .ok obj => some obj
        | .error _ => none
      else none

/-- A model response whose JSON carries `confidence: 5`; `JSON.parse` on the
brace-delimited slice of this text yields exactly the recorded object. -/
def overconfidentCall : LLMCall :=
  .returns "\x7b\x22agent\x22:\x22weather\x22,\x22confidence\x22:5\x7d"
    (.ok { agent := .vStr "weather", confidence := .vNum 5 })

/-- C4 counterexample: the code forwards a numeric model-supplied confidence
unclamped (`typeof parsed.confidence === "number" ? parsed.confidence : 0.8`),
so a response with `confidence: 5` produces a routing decision whose
confidence is 5, outside `[0,1]`, and the router propagates it unchanged. -/
theorem C4_counterexample :
    (llmRouteToAgent overconfidentCall).confidence = 5 ∧
      ¬((llmRouteToAgent overconfidentCall).confidence ≤ 1) ∧
      (routeToAgent overconfidentCall).confidence = 5 := by
  have h : (llmRouteToAgent overconfidentCall).confidence = 5 := rfl
  refine ⟨h, ?_, h⟩
  rw [h]
  norm_num

/-- C4 (amended): every fallback or defaulted confidence (0.5, 0.8) lies in
`[0,1]`, and a model-supplied numeric confidence is passed through unchanged —
so the decision's confidence lies in `[0,1]` exactly when the model's numeric
confidence (if any) does; the router propagates it unchanged.  (As stated, the
claim is false: the code never clamps, see the counterexample.) -/
theorem C4_confidence_amended (b : LLMCall)
    (h : ∀ obj, parsedOf b = some obj → ∀ q, obj.confidence = .vNum q → 0 ≤ q ∧ q ≤ 1) :
    (0 ≤ (llmRouteToAgent b).confidence ∧ (llmRouteToAgent b).confidence ≤ 1) ∧
      (routeToAgent b).confidence = (llmRouteToAgent b).confidence := by
  refine ⟨?_, rfl⟩
  cases b with
  | throws => norm_num [llmRouteToAgent, fallback]
  | returns text parse =>
    by_cases hj : hasJsonMatch (cleanedText text)
    · cases parse with
      | error e => simp only [llmRouteToAgent, if_pos hj]; norm_num [fallback]
      | ok obj =>
        have hobj : parsedOf (.returns text (.ok obj)) = some obj := by
          simp [parsedOf, hj]
        cases hag : obj.agent with
        | vStr a =>
          by_cases hv : a ∈ validAgents
          · cases hconf : obj.confidence with
            | vNum q =>
              have hq := h obj hobj q hconf
              simp only [llmRouteToAgent, if_pos hj, hag, if_pos hv, hconf]
              exact hq
            | vStr s => simp only [llmRouteToAgent, if_pos hj, hag, if_pos hv, hconf]; norm_num
            | vBool v => simp only [llmRouteToAgent, if_pos hj, hag, if_pos hv, hconf]; norm_num
            | vNull => simp only [llmRouteToAgent, if_pos hj, hag, if_pos hv, hconf]; norm_num
            | vUndef => simp only [llmRouteToAgent, if_pos hj, hag, if_pos hv, hconf]; norm_num
            | vObj => simp only [llmRouteToAgent, if_pos hj, hag, if_pos hv, hconf]; norm_num
          · simp only [llmRouteToAgent, if_pos hj, hag, if_neg hv]; norm_num [fallback]
        | vNum q => simp only [llmRouteToAgent, if_pos hj, hag]; norm_num [fallback]
        | vBool v => simp only [llmRouteToAgent, if_pos hj, hag]; norm_num [fallback]
        | vNull => simp only [llmRouteToAgent, if_pos hj, hag]; norm_num [fallback]
        | vUndef => simp only [llmRouteToAgent, if_pos hj, hag]; norm_num [fallback]
        | vObj => simp only [llmRouteToAgent, if_pos hj, hag]; norm_num [fallback]
    · simp only [llmRouteToAgent, if_neg hj]; norm_num [fallback]

/-- Witness for the amended C4: a well-formed response with confidence 0.9
yields a decision with confidence inside `[0,1]`, propagated by the router. -/
theorem C4_confidence_amended_witness :
    (0 ≤ (llmRouteToAgent (.returns "\x7b\x22agent\x22:\x22weather\x22,\x22confidence\x22:0.9\x7d"
        (.ok { agent := .vStr "weather", confidence := .vNum (9/10) }))).confidence ∧
      (llmRouteToAgent (.returns "\x7b\x22agent\x22:\x22weather\x22,\x22confidence\x22:0.9\x7d"
        (.ok { agent := .vStr "weather", confidence := .vNum (9/10) }))).confidence ≤ 1) ∧
      (routeToAgent (.returns "\x7b\x22agent\x22:\x22weather\x22,\x22confidence\x22:0.9\x7d"
        (.ok { agent := .vStr "weather", confidence := .vNum (9/10) }))).confidence =
        (llmRouteToAgent (.returns "\x7b\x22agent\x22:\x22weather\x22,\x22confidence\x22:0.9\x7d"
        (.ok { agent := .vStr "weather", confidence := .vNum (9/10) }))).confidence := by
  apply C4_confidence_amended
  intro obj hobj q hq
  have hsome : some ({ agent := .vStr "weather", confidence := .vNum (9/10) } : ParsedObj) =
      some obj := by rw [← hobj]; rfl
  obtain rfl : ({ agent := .vStr "weather", confidence := .vNum (9/10) } : ParsedObj) = obj :=
    Option.some.inj hsome
  obtain rfl : q = 9/10 := (JsVal.vNum.inj hq.symm)
  norm_num

/-! ## Code assistant tool (`executeCode` in codeAssistantAgent.ts)

The E2B sandbox is external; one invocation's observable behaviour is either
`Sandbox.create()` rejecting, `sandbox.runCode` rejecting, or an execution
result with optional structured error and captured stdout/stderr lines. -/

/-- The loosely-typed tool-result payload objects the adapters return and the
orchestrator reads (`output`, `error`, `stdout`, `stderr` from `executeCode`;
`code`, `framework`, `message` from `generateUI`). -/
structure ToolRes where
  success : Bool := true
  output : Option String := none
  error : Option String := none
  stdout : Option String := none
  stderr : Option String := none
  code : Option String := none
  framework : Option String := none
  message : Option String := none
deriving DecidableEq

inductive SandboxOutcome
  | createThrows (msg : String)
  | runThrows (msg : String)
  | runOk (error : Option (String × String)) (stdout stderr : List String)

/-- Tool `executeCode`'s `execute` body: the `try/catch/finally` around sandbox
creation and execution.  `err.message || "Unknown error"` treats the empty
message as falsy; `execution.logs.stdout.join("\n")` concatenates the captured
lines; `stdout || undefined` drops an empty capture. -/
def executeCode : SandboxOutcome → ToolRes
  | .createThrows m =>
      { success := false,
        error := some ("Sandbox error: " ++ (if m = "" then "Unknown error" else m)) }
  | .runThrows m =>
      { success := false,
        error := some ("Sandbox error: " ++ (if m = "" then "Unknown error" else m)) }
  | .runOk err out errLines =>
      let stdout := String.intercalate "\n" out
      let stderr := String.intercalate "\n" errLines
      match err with
      | some (n, v) =>
          { success := false, error := some (n ++ ": " ++ v),
            stdout := if stdout = "" then none else some stdout,
            stderr := if stderr = "" then none else some stderr }
      | none =>
          { success := true,
            output := some (if stdout = "" then "(no output)" else stdout),
            stderr := if stderr = "" then none else some stderr }

/-- Tool `generateUI`'s `execute` body (always succeeds, echoes its arguments). -/
def generateUI (code framework : String) : ToolRes :=
  { success := true, code := some code, framework := some framework,
    message := some ("UI generated as " ++
      (if framework = "react" then "React component" else "HTML page") ++
      ". Rendering in live preview.") }

/-! ## Streaming orchestrator (`POST /api/chat/send` in routes/chat.ts)

One turn is modelled as a pure function of the environment: the behaviour of
every external call the handler awaits.  Database writes are modelled as
succeeding; `routeToAgent` never throws (C1).  `geminiService`'s
`generateResponseStream` forwards chunks through `onChunk` as they arrive and
either returns their concatenation or, if the underlying stream fails, throws
`Error("Failed to generate AI response")` after the already-forwarded chunks. -/

/-- One part of an adapter's `fullStream` as the orchestrator reads it (the
`tool-call` args feed only the persisted metadata, which no claim inspects,
so they are not carried). -/
inductive SPart
  | textDelta (s : String)
  | toolCall (name : String)
  | toolResult (name : String) (res : ToolRes)
deriving DecidableEq

/-- Behaviour of one `generateResponseStream` call: the chunks forwarded to
`onChunk`, and whether the stream then fails instead of returning. -/
structure GemRun where
  chunks : List String
  fails : Bool
deriving DecidableEq

structure Conv where
  id : String
  title : Option String
  messages : List (String × String)
deriving DecidableEq

/-- Environment of one turn: all external behaviour the handler can observe. -/
structure Env where
  userExists : Bool
  /-- Case `none`: no conversationId in the request (a fresh conversation is
  created); `some none`: an id was supplied but no matching conversation of
  this user exists; `some (some c)`: the conversation found. -/
  conv : Option (Option Conv)
  newConvId : String
  message : String
  routing : RoutingResult
  /-- Outcome of `weatherAgent(city)`; the reshaped payload itself is external
  data no claim inspects. -/
  weather : Except String Unit
  geminiWeather : GemRun
  searchStream : List SPart
  codeStream : List SPart
  geminiGeneral : GemRun

/-- The named SSE events of the protocol (payload fields no claim inspects
are not carried). -/
inductive Event
  | conversation (id : String) (title : Option String)
  | userMessage
  | agentSelected (agent : String)
  | aiStart
  | aiChunk (chunk : String)
  | toolCall (name : String)
  | toolRes (name : String) (res : ToolRes)
  | weatherData
  | aiComplete (content : String)
  | titleGenerated
  | done
  | errorEv
deriving DecidableEq

/-- JavaScript truthiness of `conversation.title` (`null` and `""` are falsy). -/
def titleFalsy : Option String → Bool
  | none => true
  | some s => s = ""

/-- JavaScript `v || d` for the optional string fields of a tool result. -/
def orFalsy : Option String → String → String
  | some s, d => if s = "" then d else s
  | none, d => d

def trimStr (s : String) : String := String.mk (trimChars s.data)

/-- Apology `"Sorry, I couldn\x27t fetch the weather. " + (err.message || …)`. -/
def weatherApology (m : String) : String :=
  "Sorry, I couldn\x27t fetch the weather. " ++
    (if m = "" then "Please try again with a specific city name." else m)

/-- Accumulation `fullResponse += chunk` over the forwarded chunks. -/
def concatChunks : List String → String
  | [] => ""
  | s :: rest => s ++ concatChunks rest

/-- Check `!city` for `city = routingResult.extractedCity?.trim()` (undefined or
empty after trimming). -/
def wCityFalsy (e : Env) : Bool :=
  match e.routing.extractedCity.map (fun s => trimStr s) with
  | none => true
  | some s => s = ""

/-- The weather branch: resolve the extracted city, fetch, emit the structured
payload, answer via the grounded text stream; any failure is caught inside the
branch and turned into the apology as final content (after a last `ai_chunk`
carrying it).  Returns (events, final content); this branch never throws. -/
def weatherBranchRun (e : Env) : List Event × String :=
  if wCityFalsy e then
    let resp := weatherApology
      "Could not determine city from your message. Try: \x22weather in Mumbai\x22"
    ([.aiChunk resp], resp)
  else
    match e.weather with
    | .error m =>
        let resp := weatherApology m
        ([.aiChunk resp], resp)
    | .ok _ =>
        if e.geminiWeather.fails then
          let resp := weatherApology "Failed to generate AI response"
          (.weatherData :: e.geminiWeather.chunks.map Event.aiChunk ++ [.aiChunk resp], resp)
        else
          (.weatherData :: e.geminiWeather.chunks.map Event.aiChunk,
            concatChunks e.geminiWeather.chunks)

/-- The web-search branch: only `text-delta` parts are forwarded/accumulated. -/
def searchBranchRun : List SPart → List Event × String
  | [] => ([], "")
  | .textDelta s :: rest =>
      let t := searchBranchRun rest
      (.aiChunk s :: t.1, s ++ t.2)
  | .toolCall _ :: rest => searchBranchRun rest
  | .toolResult _ _ :: rest => searchBranchRun rest

/-- The summary the code branch pushes for one tool result. -/
def summaryOf (n : String) (r : ToolRes) : List String :=
  if n = "executeCode" then
    ["**Code Output:**\n```\n" ++ orFalsy r.output (orFalsy r.error "(no output)") ++ "\n```"]
  else if n = "generateUI" then
    ["*UI generated as " ++
      (if r.framework = some "react" then "React component" else "HTML page") ++
      ". See live preview above.*"]
  else []

/-- The code-assistant branch loop: forward deltas, tool calls and tool
results; accumulate the streamed text and the tool-result summaries in order.
Returns (events, streamed text, summaries). -/
def codeBranchRun : List SPart → List Event × String × List String
  | [] => ([], "", [])
  | p :: rest =>
      let head : List Event × String × List String :=
        match p with
        | .textDelta s => ([.aiChunk s], s, [])
        | .toolCall n => ([.toolCall n], "", [])
        | .toolResult n r => ([.toolRes n r], "", summaryOf n r)
      let t := codeBranchRun rest
      (head.1 ++ t.1, head.2.1 ++ t.2.1, head.2.2 ++ t.2.2)

/-- JavaScript `array.join(sep)`. -/
def joinSep (sep : String) : List String → String
  | [] => ""
  | [s] => s
  | s :: rest => s ++ sep ++ joinSep sep rest

/-- The post-loop fix-up of the code branch: substitute the joined summaries
when no non-whitespace text was streamed, otherwise prepend them. -/
def codeFinal (text : String) (summaries : List String) : String :=
  if trimStr text = "" then
    if summaries.isEmpty then text else joinSep "\n\n" summaries
  else if summaries.isEmpty then text
  else joinSep "\n\n" summaries ++ "\n\n" ++ text

/-- The general branch: stream the plain answer; a stream failure propagates
out of the branch (`none`). -/
def generalBranchRun (g : GemRun) : List Event × Option String :=
  (g.chunks.map Event.aiChunk, if g.fails then none else some (concatChunks g.chunks))

/-- The conversation the turn works with, if any. -/
def resolvedConv (e : Env) : Option Conv :=
  match e.conv with
  | none => some { id := e.newConvId, title := none, messages := [] }
  | some c => c

/-- Dispatch on the routing decision (events, final content or `none` if the
branch threw). -/
def branchRun (e : Env) : List Event × Option String :=
  if e.routing.agent = "weather" then
    let r := weatherBranchRun e
    (r.1, some r.2)
  else if e.routing.agent = "web_search" then
    let r := searchBranchRun e.searchStream
    (r.1, some r.2)
  else if e.routing.agent = "code_assistant" then
    let r := codeBranchRun e.codeStream
    (r.1, some (codeFinal r.2.1 r.2.2))
  else
    generalBranchRun e.geminiGeneral

structure TurnOutput where
  events : List Event
  /-- Content of the persisted assistant message, when the turn reaches the
  persistence step. -/
  persisted : Option String
deriving DecidableEq

/-- One turn of `POST /api/chat/send`: validation, conversation resolution,
the ordered event protocol, branch dispatch, persistence, title generation
for a fresh conversation, terminal `done`; any exception escaping a branch is
caught by the handler's outer `catch`, which emits `error` instead. -/
def sendTurn (e : Env) : TurnOutput :=
  if !e.userExists then { events := [.errorEv], persisted := none }
  else
    match resolvedConv e with
    | none => { events := [.errorEv], persisted := none }
    | some c =>
        let pre : List Event := [.conversation c.id c.title, .userMessage,
          .agentSelected e.routing.agent, .aiStart]
        match branchRun e with
        | (evs, none) => { events := pre ++ evs ++ [.errorEv], persisted := none }
        | (evs, some content) =>
            { events := pre ++ evs ++ [.aiComplete content] ++
                (if titleFalsy c.title && c.messages.length == 0 then [.titleGenerated]
                 else []) ++ [.done],
              persisted := some content }

/-- Events allowed between `ai_start` and `ai_complete`. -/
def isMidEvent : Event → Bool
  | .aiChunk _ => true
  | .toolCall _ => true
  | .toolRes _ _ => true
  | .weatherData => true
  | _ => false

/-- Concatenation, in emission order, of the `ai_chunk` payloads of a trace. -/
def chunkConcat : List Event → String
  | [] => ""
  | .aiChunk s :: rest => s ++ chunkConcat rest
  | _ :: rest => chunkConcat rest

/-- The content carried by the first `ai_complete` event of a trace. -/
def aiCompleteContent : List Event → Option String
  | [] => none
  | .aiComplete s :: _ => some s
  | _ :: rest => aiCompleteContent rest

/-! ### Trace-shape lemmas -/

theorem searchBranch_mid (parts : List SPart) :
    ∀ ev ∈ (searchBranchRun parts).1, isMidEvent ev = true := by
  induction parts with
  | nil => intro ev h; simp [searchBranchRun] at h
  | cons p rest ih =>
    intro ev h
    cases p with
    | textDelta s =>
      simp only [searchBranchRun, List.mem_cons] at h
      rcases h with h | h
      · subst h; rfl
      · exact ih ev h
    | toolCall n => exact ih ev h
    | toolResult n r => exact ih ev h

theorem codeBranch_mid (parts : List SPart) :
    ∀ ev ∈ (codeBranchRun parts).1, isMidEvent ev = true := by
  induction parts with
  | nil => intro ev h; simp [codeBranchRun] at h
  | cons p rest ih =>
    intro ev h
    cases p with
    | textDelta s =>
      simp only [codeBranchRun, List.cons_append, List.nil_append, List.mem_cons] at h
      rcases h with h | h
      · subst h; rfl
      · exact ih ev h
    | toolCall n =>
      simp only [codeBranchRun, List.cons_append, List.nil_append, List.mem_cons] at h
      rcases h with h | h
      · subst h; rfl
      · exact ih ev h
    | toolResult n r =>
      simp only [codeBranchRun, List.cons_append, List.nil_append, List.mem_cons] at h
      rcases h with h | h
      · subst h; rfl
      · exact ih ev h

theorem weatherBranch_mid (e : Env) :
    ∀ ev ∈ (weatherBranchRun e).1, isMidEvent ev = true := by
  intro ev h
  rw [weatherBranchRun] at h
  split at h
  · simp only [List.mem_singleton] at h; subst h; rfl
  · split at h
    · simp only [List.mem_singleton] at h; subst h; rfl
    · split at h
      · rcases List.mem_cons.mp h with h | h
        · subst h; rfl
        · rcases List.mem_append.mp h with h | h
          · obtain ⟨s, _, hs⟩ := List.mem_map.mp h
            subst hs; rfl
          · have hone := List.mem_singleton.mp h
            subst hone; rfl
      · rcases List.mem_cons.mp h with h | h
        · subst h; rfl
        · obtain ⟨s, _, hs⟩ := List.mem_map.mp h
          subst hs; rfl

theorem generalBranch_mid (g : GemRun) :
    ∀ ev ∈ (generalBranchRun g).1, isMidEvent ev = true := by
  intro ev h
  simp only [generalBranchRun, List.mem_map] at h
  obtain ⟨s, _, h⟩ := h
  subst h; rfl

theorem branch_mid (e : Env) : ∀ ev ∈ (branchRun e).1, isMidEvent ev = true := by
  intro ev h
  rw [branchRun] at h
  split at h
  · exact weatherBranch_mid e ev h
  · split at h
    · exact searchBranch_mid e.searchStream ev h
    · split at h
      · exact codeBranch_mid e.codeStream ev h
      · exact generalBranch_mid e.geminiGeneral ev h

theorem branch_no_done (e : Env) : Event.done ∉ (branchRun e).1 := by
  intro h
  have := branch_mid e _ h
  simp [isMidEvent] at this

theorem branch_no_error (e : Env) : Event.errorEv ∉ (branchRun e).1 := by
  intro h
  have := branch_mid e _ h
  simp [isMidEvent] at this

theorem branch_no_complete (e : Env) : ∀ s, Event.aiComplete s ∉ (branchRun e).1 := by
  intro s h
  have := branch_mid e _ h
  simp [isMidEvent] at this

theorem sendTurn_success_shape (e : Env) (c : Conv) (evs : List Event) (content : String)
    (hu : e.userExists = true) (hc : resolvedConv e = some c)
    (hb : branchRun e = (evs, some content)) :
    sendTurn e =
      { events := [Event.conversation c.id c.title, .userMessage,
          .agentSelected e.routing.agent, .aiStart] ++ evs ++ [.aiComplete content] ++
          (if titleFalsy c.title && c.messages.length == 0 then [.titleGenerated] else []) ++
          [.done],
        persisted := some content } := by
  rw [sendTurn, hu, hc, hb]
  rfl

theorem sendTurn_throw_shape (e : Env) (c : Conv) (evs : List Event)
    (hu : e.userExists = true) (hc : resolvedConv e = some c)
    (hb : branchRun e = (evs, none)) :
    sendTurn e =
      { events := [Event.conversation c.id c.title, .userMessage,
          .agentSelected e.routing.agent, .aiStart] ++ evs ++ [.errorEv],
        persisted := none } := by
  rw [sendTurn, hu, hc, hb]
  rfl

/-- C2: whenever a turn of `POST /api/chat/send` reaches its terminal `done`,
the full trace is exactly `conversation`, `user_message`, `agent_selected`,
`ai_start`, then only `ai_chunk`/`tool_call`/`tool_result`/`weather_data`
events, then `ai_complete`, then `title_generated` exactly when the resolved
conversation's title was unset (null or empty) and it had no prior messages,
then `done` — no named event out of that order. -/
theorem C2_sse_event_order (e : Env) (h : Event.done ∈ (sendTurn e).events) :
    ∃ (cid : String) (title : Option String) (ag : String) (mid : List Event)
      (content : String) (tg : Bool),
      (sendTurn e).events =
        Event.conversation cid title :: .userMessage :: .agentSelected ag :: .aiStart ::
          (mid ++ Event.aiComplete content ::
            ((if tg then [Event.titleGenerated] else []) ++ [Event.done])) ∧
      (∀ ev ∈ mid, isMidEvent ev = true) ∧
      (∃ c, resolvedConv e = some c ∧
        tg = (titleFalsy c.title && c.messages.length == 0)) := by
  by_cases hu : e.userExists = true
  · cases hc : resolvedConv e with
    | none =>
      rw [sendTurn, hu, hc] at h
      simp at h
    | some c =>
      cases hb : branchRun e with
      | mk evs resp =>
        cases resp with
        | none =>
          exfalso
          have hd : Event.done ∉ evs := by
            have hdd := branch_no_done e
            rw [hb] at hdd
            exact hdd
          rw [sendTurn_throw_shape e c evs hu hc hb] at h
          simp [hd] at h
        | some content =>
          have hmid : ∀ ev ∈ evs, isMidEvent ev = true := by
            have hm := branch_mid e
            rw [hb] at hm
            exact hm
          refine ⟨c.id, c.title, e.routing.agent, evs, content,
            titleFalsy c.title && c.messages.length == 0, ?_, hmid, ⟨c, hc ▸ rfl, rfl⟩⟩
          rw [sendTurn_success_shape e c evs content hu hc hb]
          simp [List.append_assoc]
  · rw [sendTurn] at h
    simp only [Bool.not_eq_true] at hu
    rw [hu] at h
    simp at h

/-- A turn on the general route that completes without failure. -/
def envGeneralOk : Env :=
  { userExists := true, conv := none, newConvId := "c1", message := "hello",
    routing := { agent := "general", confidence := 1, reason := "llm",
                 agentName := "General Assistant", extractedCity := none },
    weather := .ok (), geminiWeather := { chunks := [], fails := false },
    searchStream := [], codeStream := [],
    geminiGeneral := { chunks := ["Hi ", "there"], fails := false } }

/-- Witness for C2: a completed general-route turn exhibits the full ordered
trace. -/
theorem C2_sse_event_order_witness :
    Event.done ∈ (sendTurn envGeneralOk).events ∧
      ∃ (cid : String) (title : Option String) (ag : String) (mid : List Event)
        (content : String) (tg : Bool),
        (sendTurn envGeneralOk).events =
          Event.conversation cid title :: .userMessage :: .agentSelected ag :: .aiStart ::
            (mid ++ Event.aiComplete content ::
              ((if tg then [Event.titleGenerated] else []) ++ [Event.done])) ∧
        (∀ ev ∈ mid, isMidEvent ev = true) ∧
        (∃ c, resolvedConv envGeneralOk = some c ∧
          tg = (titleFalsy c.title && c.messages.length == 0)) :=
  ⟨by decide, C2_sse_event_order envGeneralOk (by decide)⟩

/-! ### String append facts and chunk-concatenation lemmas -/

theorem str_empty_append (s : String) : "" ++ s = s := rfl

theorem str_append_empty : ∀ s : String, s ++ "" = s
  | ⟨l⟩ => congrArg String.mk (List.append_nil l)

theorem str_append_assoc : ∀ a b c : String, a ++ b ++ c = a ++ (b ++ c)
  | ⟨x⟩, ⟨y⟩, ⟨z⟩ => congrArg String.mk (List.append_assoc x y z)

theorem str_length_append : ∀ a b : String, (a ++ b).length = a.length + b.length
  | ⟨x⟩, ⟨y⟩ => List.length_append x y

theorem str_append_ne_empty_left : ∀ (s t : String), s ≠ "" → s ++ t ≠ ""
  | ⟨x⟩, ⟨y⟩, h, he => by
    apply h
    have hd : x ++ y = [] := congrArg String.data he
    have hx : x = [] := (List.append_eq_nil.mp hd).1
    rw [hx]

theorem str_append_ne_empty_right : ∀ (s t : String), t ≠ "" → s ++ t ≠ ""
  | ⟨x⟩, ⟨y⟩, h, he => by
    apply h
    have hd : x ++ y = [] := congrArg String.data he
    have hy : y = [] := (List.append_eq_nil.mp hd).2
    rw [hy]

theorem chunkConcat_append (l1 l2 : List Event) :
    chunkConcat (l1 ++ l2) = chunkConcat l1 ++ chunkConcat l2 := by
  induction l1 with
  | nil => rw [List.nil_append]; exact (str_empty_append _).symm
  | cons a l ih =>
    cases a with
    | aiChunk s => simp only [List.cons_append, chunkConcat, List.append_eq, ih, str_append_assoc]
    | conversation i t => simpa [chunkConcat] using ih
    | userMessage => simpa [chunkConcat] using ih
    | agentSelected ag => simpa [chunkConcat] using ih
    | aiStart => simpa [chunkConcat] using ih
    | toolCall n => simpa [chunkConcat] using ih
    | toolRes n r => simpa [chunkConcat] using ih
    | weatherData => simpa [chunkConcat] using ih
    | aiComplete s => simpa [chunkConcat] using ih
    | titleGenerated => simpa [chunkConcat] using ih
    | done => simpa [chunkConcat] using ih
    | errorEv => simpa [chunkConcat] using ih

theorem chunkConcat_map_chunks (chunks : List String) :
    chunkConcat (chunks.map Event.aiChunk) = concatChunks chunks := by
  induction chunks with
  | nil => rfl
  | cons s rest ih => simp only [List.map_cons, chunkConcat, concatChunks, ih]

/-- The `ai_chunk` payload of a completed turn's trace is exactly the branch's. -/
theorem sendTurn_chunkConcat (e : Env) (c : Conv) (evs : List Event) (content : String)
    (hu : e.userExists = true) (hc : resolvedConv e = some c)
    (hb : branchRun e = (evs, some content)) :
    chunkConcat (sendTurn e).events = chunkConcat evs := by
  rw [sendTurn_success_shape e c evs content hu hc hb]
  simp only [chunkConcat_append]
  have h1 : chunkConcat [Event.conversation c.id c.title, .userMessage,
      .agentSelected e.routing.agent, .aiStart] = "" := rfl
  have h2 : chunkConcat [Event.aiComplete content] = "" := rfl
  have h3 : chunkConcat (if titleFalsy c.title && c.messages.length == 0
      then [Event.titleGenerated] else []) = "" := by
    split <;> rfl
  have h4 : chunkConcat [Event.done] = "" := rfl
  rw [h1, h2, h3, h4, str_empty_append, str_append_empty, str_append_empty, str_append_empty]

theorem aiCompleteContent_skip (l rest : List Event)
    (h : ∀ ev ∈ l, isMidEvent ev = true) :
    aiCompleteContent (l ++ rest) = aiCompleteContent rest := by
  induction l with
  | nil => rfl
  | cons a l ih =>
    have ha := h a (List.mem_cons_self a l)
    have hrest : ∀ ev ∈ l, isMidEvent ev = true := fun ev hv => h ev (List.mem_cons_of_mem a hv)
    cases a with
    | aiChunk s => simpa [aiCompleteContent] using ih hrest
    | toolCall n => simpa [aiCompleteContent] using ih hrest
    | toolRes n r => simpa [aiCompleteContent] using ih hrest
    | weatherData => simpa [aiCompleteContent] using ih hrest
    | conversation i t => simp [isMidEvent] at ha
    | userMessage => simp [isMidEvent] at ha
    | agentSelected ag => simp [isMidEvent] at ha
    | aiStart => simp [isMidEvent] at ha
    | aiComplete s => simp [isMidEvent] at ha
    | titleGenerated => simp [isMidEvent] at ha
    | done => simp [isMidEvent] at ha
    | errorEv => simp [isMidEvent] at ha

/-- The `ai_complete` content of a completed turn is the branch's content. -/
theorem sendTurn_aiCompleteContent (e : Env) (c : Conv) (evs : List Event) (content : String)
    (hu : e.userExists = true) (hc : resolvedConv e = some c)
    (hb : branchRun e = (evs, some content)) :
    aiCompleteContent (sendTurn e).events = some content := by
  rw [sendTurn_success_shape e c evs content hu hc hb]
  have hmid : ∀ ev ∈ evs, isMidEvent ev = true := by
    have hm := branch_mid e
    rw [hb] at hm
    exact hm
  show aiCompleteContent ([Event.conversation c.id c.title, .userMessage,
    .agentSelected e.routing.agent, .aiStart] ++ evs ++ [Event.aiComplete content] ++ _ ++
    [Event.done]) = some content
  simp only [List.append_assoc]
  show aiCompleteContent (evs ++ _) = some content
  rw [aiCompleteContent_skip evs _ hmid]
  rfl

/-- Every event of a completed turn is one of the protocol events. -/
theorem sendTurn_mem_cases (e : Env) (c : Conv) (evs : List Event) (content : String)
    (hu : e.userExists = true) (hc : resolvedConv e = some c)
    (hb : branchRun e = (evs, some content)) (ev : Event)
    (h : ev ∈ (sendTurn e).events) :
    ev = Event.conversation c.id c.title ∨ ev = .userMessage ∨
      ev = .agentSelected e.routing.agent ∨ ev = .aiStart ∨ ev ∈ evs ∨
      ev = .aiComplete content ∨ ev = .titleGenerated ∨ ev = .done := by
  rw [sendTurn_success_shape e c evs content hu hc hb] at h
  simp only [List.append_assoc, List.cons_append, List.nil_append, List.mem_cons,
    List.mem_append, List.mem_singleton] at h
  rcases h with h | h | h | h | h | h
  · simp [h]
  · simp [h]
  · simp [h]
  · simp [h]
  · simp [h]
  · rcases h with h | h
    · simp [h]
    · rcases h with h | h
      · revert h
        split
        · intro h
          rw [List.mem_singleton] at h
          simp [h]
        · intro h
          exact absurd h (List.not_mem_nil ev)
      · rcases h with h | h
        · simp [h]
        · exact absurd h (List.not_mem_nil ev)

theorem sendTurn_no_error (e : Env) (c : Conv) (evs : List Event) (content : String)
    (hu : e.userExists = true) (hc : resolvedConv e = some c)
    (hb : branchRun e = (evs, some content)) :
    Event.errorEv ∉ (sendTurn e).events := by
  intro h
  have herr : Event.errorEv ∉ evs := by
    have hne := branch_no_error e
    rw [hb] at hne
    exact hne
  rcases sendTurn_mem_cases e c evs content hu hc hb _ h with
    h1 | h1 | h1 | h1 | h1 | h1 | h1 | h1
  · exact Event.noConfusion h1
  · exact Event.noConfusion h1
  · exact Event.noConfusion h1
  · exact Event.noConfusion h1
  · exact herr h1
  · exact Event.noConfusion h1
  · exact Event.noConfusion h1
  · exact Event.noConfusion h1

theorem sendTurn_done_last (e : Env) (c : Conv) (evs : List Event) (content : String)
    (hu : e.userExists = true) (hc : resolvedConv e = some c)
    (hb : branchRun e = (evs, some content)) :
    (sendTurn e).events.getLast? = some Event.done ∧ Event.done ∈ (sendTurn e).events := by
  rw [sendTurn_success_shape e c evs content hu hc hb]
  constructor
  · exact List.getLast?_concat _
  · simp

/-! ### Branch-level content lemmas -/

theorem weatherBranch_concat (e : Env)
    (hsafe : wCityFalsy e = false → e.weather = .ok () → e.geminiWeather.fails = true →
      e.geminiWeather.chunks = []) :
    chunkConcat (weatherBranchRun e).1 = (weatherBranchRun e).2 := by
  by_cases hcf : wCityFalsy e = true
  · simp [weatherBranchRun, hcf, chunkConcat, str_append_empty]
  · have hcf' : wCityFalsy e = false := by simpa using hcf
    cases hw : e.weather with
    | error m => simp [weatherBranchRun, hcf', hw, chunkConcat, str_append_empty]
    | ok u =>
      rcases u
      by_cases hf : e.geminiWeather.fails = true
      · have hch := hsafe hcf' hw hf
        simp [weatherBranchRun, hcf', hw, hf, hch, chunkConcat, str_append_empty]
      · have hf' : e.geminiWeather.fails = false := by simpa using hf
        simp [weatherBranchRun, hcf', hw, hf', chunkConcat, chunkConcat_map_chunks]

theorem weatherBranch_fail (e : Env)
    (hfail : wCityFalsy e = true ∨ (∃ m, e.weather = .error m) ∨
      e.geminiWeather.fails = true) :
    ∃ m, (weatherBranchRun e).2 = weatherApology m := by
  by_cases hcf : wCityFalsy e = true
  · exact ⟨"Could not determine city from your message. Try: \x22weather in Mumbai\x22",
      by simp [weatherBranchRun, hcf]⟩
  · have hcf' : wCityFalsy e = false := by simpa using hcf
    cases hw : e.weather with
    | error m => exact ⟨m, by simp [weatherBranchRun, hcf', hw]⟩
    | ok u =>
      rcases u
      by_cases hf : e.geminiWeather.fails = true
      · exact ⟨"Failed to generate AI response", by simp [weatherBranchRun, hcf', hw, hf]⟩
      · exfalso
        rcases hfail with h | ⟨m, h⟩ | h
        · exact hcf h
        · rw [hw] at h
          exact Except.noConfusion h
        · exact hf h

theorem weatherApology_split (m : String) :
    ∃ rest, weatherApology m = "Sorry, I couldn\x27t fetch the weather." ++ rest := by
  refine ⟨" " ++ (if m = "" then "Please try again with a specific city name." else m), ?_⟩
  rw [weatherApology, ← str_append_assoc]
  have hsp : ("Sorry, I couldn\x27t fetch the weather." ++ " " : String) =
      "Sorry, I couldn\x27t fetch the weather. " := rfl
  rw [hsp]

/-- C7: a weather-routed turn in which no location resolves, the forecast
fetch fails, or the grounded answer stream fails, still completes: the final
content is the apology prefixed `"Sorry, I couldn\x27t fetch the weather."`, it
is persisted and echoed by `ai_complete`, and the turn ends with `done`,
never with an `error` event. -/
theorem C7_weather_error_degrades (e : Env) (c : Conv)
    (hu : e.userExists = true) (hc : resolvedConv e = some c)
    (hagent : e.routing.agent = "weather")
    (hfail : wCityFalsy e = true ∨ (∃ m, e.weather = .error m) ∨
      e.geminiWeather.fails = true) :
    ∃ content rest,
      (sendTurn e).persisted = some content ∧
      aiCompleteContent (sendTurn e).events = some content ∧
      content = "Sorry, I couldn\x27t fetch the weather." ++ rest ∧
      Event.done ∈ (sendTurn e).events ∧
      Event.errorEv ∉ (sendTurn e).events := by
  have hb : branchRun e = ((weatherBranchRun e).1, some (weatherBranchRun e).2) := by
    rw [branchRun, if_pos hagent]
  obtain ⟨m, hm⟩ := weatherBranch_fail e hfail
  obtain ⟨rest, hrest⟩ := weatherApology_split m
  refine ⟨(weatherBranchRun e).2, rest, ?_, ?_, ?_, ?_, ?_⟩
  · rw [sendTurn_success_shape e c _ _ hu hc hb]
  · exact sendTurn_aiCompleteContent e c _ _ hu hc hb
  · rw [hm, hrest]
  · exact (sendTurn_done_last e c _ _ hu hc hb).2
  · exact sendTurn_no_error e c _ _ hu hc hb

/-- A weather-routed turn whose extracted city is missing. -/
def envWeatherNoCity : Env :=
  { userExists := true, conv := none, newConvId := "c1", message := "how hot is it",
    routing := { agent := "weather", confidence := 1, reason := "llm",
                 agentName := "Weather Agent", extractedCity := none },
    weather := .ok (), geminiWeather := { chunks := [], fails := false },
    searchStream := [], codeStream := [],
    geminiGeneral := { chunks := [], fails := false } }

/-- Witness for C7 at a concrete unresolved-city turn. -/
theorem C7_weather_error_degrades_witness :
    ∃ content rest,
      (sendTurn envWeatherNoCity).persisted = some content ∧
      aiCompleteContent (sendTurn envWeatherNoCity).events = some content ∧
      content = "Sorry, I couldn\x27t fetch the weather." ++ rest ∧
      Event.done ∈ (sendTurn envWeatherNoCity).events ∧
      Event.errorEv ∉ (sendTurn envWeatherNoCity).events :=
  C7_weather_error_degrades envWeatherNoCity
    { id := "c1", title := none, messages := [] } (by decide) (by decide) (by decide)
    (Or.inl (by decide))

/-! ### C5: `ai_complete` content versus streamed chunks -/

/-- The non-tool-bearing route dispatch: anything that is not one of the three
named agents falls to the general adapter. -/
def elseBranch (e : Env) : Prop :=
  e.routing.agent ≠ "weather" ∧ e.routing.agent ≠ "web_search" ∧
    e.routing.agent ≠ "code_assistant"

/-- A weather turn whose grounded answer stream fails after a partial chunk. -/
def envWeatherPartial : Env :=
  { userExists := true, conv := none, newConvId := "c1", message := "weather in Paris",
    routing := { agent := "weather", confidence := 1, reason := "llm",
                 agentName := "Weather Agent", extractedCity := some "Paris" },
    weather := .ok (), geminiWeather := { chunks := ["Hello"], fails := true },
    searchStream := [], codeStream := [],
    geminiGeneral := { chunks := [], fails := false } }

/-- C5 counterexample: on the weather error path the apology replaces the
final content, but chunks already streamed before the failure stay in the
trace, so the persisted/`ai_complete` content is not the concatenation of the
emitted `ai_chunk` deltas. -/
theorem C5_counterexample :
    aiCompleteContent (sendTurn envWeatherPartial).events =
      some (weatherApology "Failed to generate AI response") ∧
    (sendTurn envWeatherPartial).persisted =
      some (weatherApology "Failed to generate AI response") ∧
    chunkConcat (sendTurn envWeatherPartial).events ≠
      weatherApology "Failed to generate AI response" := by
  refine ⟨by decide, by decide, by decide⟩

/-- C5 (amended): for every turn on the general route, and every turn on the
weather route in which any failure happens before the first chunk of the
grounded answer was streamed, the persisted content echoed by `ai_complete`
equals the concatenation, in emission order, of the `ai_chunk` payloads.  (As
stated the claim is false for a weather-route text-stream failure after a
partial chunk — see the counterexample.) -/
theorem C5_content_is_chunk_concat (e : Env)
    (h : elseBranch e ∨ (e.routing.agent = "weather" ∧
      (wCityFalsy e = false → e.weather = .ok () → e.geminiWeather.fails = true →
        e.geminiWeather.chunks = []))) :
    ∀ content, aiCompleteContent (sendTurn e).events = some content →
      content = chunkConcat (sendTurn e).events ∧
        (sendTurn e).persisted = some content := by
  intro content hcc
  by_cases hu : e.userExists = true
  · cases hcv : resolvedConv e with
    | none =>
      rw [sendTurn, hu, hcv] at hcc
      exact absurd hcc (by simp [aiCompleteContent])
    | some c =>
      cases hbr : branchRun e with
      | mk evs resp =>
        cases resp with
        | none =>
          exfalso
          have hmid : ∀ ev ∈ evs, isMidEvent ev = true := by
            have hm := branch_mid e
            rw [hbr] at hm
            exact hm
          rw [sendTurn_throw_shape e c evs hu hcv hbr] at hcc
          have : aiCompleteContent ([Event.conversation c.id c.title, .userMessage,
              .agentSelected e.routing.agent, .aiStart] ++ evs ++ [Event.errorEv]) = none := by
            show aiCompleteContent ([Event.conversation c.id c.title, .userMessage,
              .agentSelected e.routing.agent, .aiStart] ++ evs ++ [Event.errorEv]) = none
            rw [List.append_assoc]
            show aiCompleteContent (evs ++ [Event.errorEv]) = none
            rw [aiCompleteContent_skip evs _ hmid]
            rfl
          rw [this] at hcc
          exact Option.noConfusion hcc
        | some bcontent =>
          have hcc' := sendTurn_aiCompleteContent e c evs bcontent hu hcv hbr
          rw [hcc'] at hcc
          obtain rfl : bcontent = content := Option.some.inj hcc
          refine ⟨?_, by rw [sendTurn_success_shape e c evs bcontent hu hcv hbr]⟩
          rw [sendTurn_chunkConcat e c evs bcontent hu hcv hbr]
          rcases h with ⟨h1, h2, h3⟩ | ⟨hagent, hsafe⟩
          · have hbeq : branchRun e = generalBranchRun e.geminiGeneral := by
              rw [branchRun, if_neg h1, if_neg h2, if_neg h3]
            rw [hbeq, generalBranchRun] at hbr
            by_cases hf : e.geminiGeneral.fails = true
            · rw [hf] at hbr
              exact absurd (congrArg Prod.snd hbr) (by simp)
            · have hf' : e.geminiGeneral.fails = false := by simpa using hf
              rw [hf'] at hbr
              have hevs : e.geminiGeneral.chunks.map Event.aiChunk = evs :=
                congrArg Prod.fst hbr
              have hcont : some (concatChunks e.geminiGeneral.chunks) = some bcontent :=
                congrArg Prod.snd hbr
              rw [← hevs, chunkConcat_map_chunks]
              exact (Option.some.inj hcont).symm
          · have hbeq : branchRun e =
                ((weatherBranchRun e).1, some (weatherBranchRun e).2) := by
              rw [branchRun, if_pos hagent]
            rw [hbeq] at hbr
            have hevs : (weatherBranchRun e).1 = evs := congrArg Prod.fst hbr
            have hcont : some (weatherBranchRun e).2 = some bcontent :=
              congrArg Prod.snd hbr
            rw [← hevs, weatherBranch_concat e hsafe]
            exact (Option.some.inj hcont).symm
  · exfalso
    rw [sendTurn] at hcc
    simp only [Bool.not_eq_true] at hu
    rw [hu] at hcc
    exact Option.noConfusion hcc

/-- Witness for the amended C5 at a completed general-route turn. -/
theorem C5_content_is_chunk_concat_witness :
    "Hi there" = chunkConcat (sendTurn envGeneralOk).events ∧
      (sendTurn envGeneralOk).persisted = some "Hi there" :=
  C5_content_is_chunk_concat envGeneralOk
    (Or.inl ⟨by decide, by decide, by decide⟩) "Hi there" (by decide)

/-! ### C6 and C10: the code-assistant branch -/

/-- The three failure modes of one `executeCode` invocation. -/
def sandboxFailed : SandboxOutcome → Bool
  | .runOk none _ _ => false
  | _ => true

theorem codeBranch_toolres (parts : List SPart) (n : String) (r : ToolRes) :
    SPart.toolResult n r ∈ parts → Event.toolRes n r ∈ (codeBranchRun parts).1 := by
  induction parts with
  | nil => intro h; simp at h
  | cons p rest ih =>
    intro h
    rcases List.mem_cons.mp h with h2 | h2
    · subst h2
      simp [codeBranchRun]
    · clear h
      cases p with
      | textDelta s =>
        show Event.toolRes n r ∈ Event.aiChunk s :: (codeBranchRun rest).1
        exact List.mem_cons_of_mem _ (ih h2)
      | toolCall m =>
        show Event.toolRes n r ∈ Event.toolCall m :: (codeBranchRun rest).1
        exact List.mem_cons_of_mem _ (ih h2)
      | toolResult m r' =>
        show Event.toolRes n r ∈ Event.toolRes m r' :: (codeBranchRun rest).1
        exact List.mem_cons_of_mem _ (ih h2)

theorem codeBranch_concat (parts : List SPart) :
    chunkConcat (codeBranchRun parts).1 = (codeBranchRun parts).2.1 := by
  induction parts with
  | nil => rfl
  | cons p rest ih =>
    cases p with
    | textDelta s =>
      show chunkConcat (Event.aiChunk s :: (codeBranchRun rest).1) =
        s ++ (codeBranchRun rest).2.1
      rw [chunkConcat, ih]
    | toolCall m =>
      have hstep : chunkConcat (Event.toolCall m :: (codeBranchRun rest).1) =
          chunkConcat (codeBranchRun rest).1 := rfl
      show chunkConcat (Event.toolCall m :: (codeBranchRun rest).1) =
        "" ++ (codeBranchRun rest).2.1
      rw [hstep, ih, str_empty_append]
    | toolResult m r =>
      have hstep : chunkConcat (Event.toolRes m r :: (codeBranchRun rest).1) =
          chunkConcat (codeBranchRun rest).1 := rfl
      show chunkConcat (Event.toolRes m r :: (codeBranchRun rest).1) =
        "" ++ (codeBranchRun rest).2.1
      rw [hstep, ih, str_empty_append]

theorem codeBranch_summaries_nonempty (parts : List SPart) :
    (∃ n r, SPart.toolResult n r ∈ parts ∧ (n = "executeCode" ∨ n = "generateUI")) →
      (codeBranchRun parts).2.2 ≠ [] := by
  induction parts with
  | nil => rintro ⟨n, r, hmem, hn⟩; simp at hmem
  | cons p rest ih =>
    rintro ⟨n, r, hmem, hn⟩
    rcases List.mem_cons.mp hmem with hp | hp
    · subst hp
      show summaryOf n r ++ (codeBranchRun rest).2.2 ≠ []
      intro he
      rcases List.append_eq_nil.mp he with ⟨h1, _⟩
      rcases hn with hn | hn <;> simp [summaryOf, hn] at h1
    · have htail := ih ⟨n, r, hp, hn⟩
      cases p with
      | textDelta s =>
        show [] ++ (codeBranchRun rest).2.2 ≠ []
        simpa using htail
      | toolCall m =>
        show [] ++ (codeBranchRun rest).2.2 ≠ []
        simpa using htail
      | toolResult m r' =>
        show summaryOf m r' ++ (codeBranchRun rest).2.2 ≠ []
        intro he
        exact htail (List.append_eq_nil.mp he).2

theorem str_append3_head (x y z : String) (c : Char) (l : List Char)
    (hx : x.data = c :: l) : ∃ cs, (x ++ y ++ z).data = c :: cs := by
  obtain ⟨lx⟩ := x
  obtain ⟨ly⟩ := y
  obtain ⟨lz⟩ := z
  simp only [String.data] at hx
  subst hx
  exact ⟨l ++ ly ++ lz, by simp⟩

/-- Every summary the code branch collects begins with `*` (a non-whitespace
character): both summary templates start with an asterisk. -/
theorem codeBranch_summaries_star (parts : List SPart) :
    ∀ s ∈ (codeBranchRun parts).2.2, ∃ cs, s.data = Char.ofNat 42 :: cs := by
  induction parts with
  | nil => intro s h; simp [codeBranchRun] at h
  | cons p rest ih =>
    intro s h
    cases p with
    | textDelta t =>
      exact ih s h
    | toolCall m =>
      exact ih s h
    | toolResult m r =>
      have h' : s ∈ summaryOf m r ++ (codeBranchRun rest).2.2 := h
      rcases List.mem_append.mp h' with h2 | h2
      · rw [summaryOf] at h2
        split at h2
        · rcases List.mem_singleton.mp h2 with rfl
          exact str_append3_head "**Code Output:**\n```\n" _ "\n```" _ _ rfl
        · split at h2
          · rcases List.mem_singleton.mp h2 with rfl
            exact str_append3_head "*UI generated as " _ ". See live preview above.*" _ _ rfl
          · simp at h2
      · exact ih s h2

theorem joinSep_head (sep : String) (s0 : String) (rest : List String) (c : Char)
    (cs : List Char) (h : s0.data = c :: cs) :
    ∃ cs', (joinSep sep (s0 :: rest)).data = c :: cs' := by
  cases rest with
  | nil => exact ⟨cs, h⟩
  | cons s1 srest =>
    show ∃ cs', (s0 ++ sep ++ joinSep sep (s1 :: srest)).data = c :: cs'
    exact str_append3_head s0 sep _ c cs h

theorem string_ne_empty_of_data (s : String) (c : Char) (cs : List Char)
    (h : s.data = c :: cs) : s ≠ "" := by
  intro he
  rw [he] at h
  exact List.noConfusion h

theorem dropWhile_snoc_ne (p : Char → Bool) (c : Char) (hc : p c = false) :
    ∀ l : List Char, List.dropWhile p (l ++ [c]) ≠ [] := by
  intro l
  induction l with
  | nil => simp [List.dropWhile, hc]
  | cons x xs ih =>
    simp only [List.cons_append, List.dropWhile]
    split
    · exact ih
    · simp

/-- A string whose first character is not whitespace does not trim to empty. -/
theorem trimStr_ne_empty (s : String) (c : Char) (cs : List Char)
    (hdata : s.data = c :: cs) (hc : c.isWhitespace = false) : trimStr s ≠ "" := by
  intro he
  have hd : trimChars s.data = [] := congrArg String.data he
  rw [hdata] at hd
  rw [trimChars] at hd
  have h1 : List.dropWhile Char.isWhitespace (c :: cs) = c :: cs := by
    simp [List.dropWhile, hc]
  rw [h1] at hd
  have h2 : (c :: cs).reverse = cs.reverse ++ [c] := by simp
  rw [h2] at hd
  have h3 := dropWhile_snoc_ne Char.isWhitespace c hc cs.reverse
  rw [List.reverse_eq_nil_iff] at hd
  exact h3 hd

theorem joinSep_ne_empty (sep : String) (s0 : String) (rest : List String)
    (h : s0 ≠ "") : joinSep sep (s0 :: rest) ≠ "" := by
  cases rest with
  | nil => exact h
  | cons s1 srest =>
    show s0 ++ sep ++ joinSep sep (s1 :: srest) ≠ ""
    exact str_append_ne_empty_left _ _ (str_append_ne_empty_left _ _ h)

/-- C6: whenever the sandbox cannot be created, execution throws, or the
execution reports a structured error, `executeCode`'s execute function returns
normally with `success = false` and a non-empty error string; on the
code-assistant route every tool result of the stream is forwarded as a
`tool_result` event — never as an `error` event — and the turn still ends
with `done`. -/
theorem C6_executeCode_failure_is_tool_result :
    (∀ o : SandboxOutcome, sandboxFailed o = true →
      (executeCode o).success = false ∧
        ∃ msg, (executeCode o).error = some msg ∧ msg ≠ "") ∧
    (∀ (e : Env) (c : Conv), e.userExists = true → resolvedConv e = some c →
      e.routing.agent = "code_assistant" →
      (∀ n r, SPart.toolResult n r ∈ e.codeStream →
        Event.toolRes n r ∈ (sendTurn e).events) ∧
      Event.errorEv ∉ (sendTurn e).events ∧
      (sendTurn e).events.getLast? = some Event.done) := by
  constructor
  · intro o ho
    cases o with
    | createThrows m =>
      exact ⟨rfl, "Sandbox error: " ++ (if m = "" then "Unknown error" else m), rfl,
        str_append_ne_empty_left _ _ (by decide)⟩
    | runThrows m =>
      exact ⟨rfl, "Sandbox error: " ++ (if m = "" then "Unknown error" else m), rfl,
        str_append_ne_empty_left _ _ (by decide)⟩
    | runOk err out errLines =>
      cases err with
      | none => simp [sandboxFailed] at ho
      | some nv =>
        obtain ⟨n, v⟩ := nv
        exact ⟨rfl, n ++ ": " ++ v, rfl,
          str_append_ne_empty_left _ _ (str_append_ne_empty_right _ _ (by decide))⟩
  · intro e c hu hc hagent
    have h1 : e.routing.agent ≠ "weather" := by rw [hagent]; decide
    have h2 : e.routing.agent ≠ "web_search" := by rw [hagent]; decide
    have hb : branchRun e = ((codeBranchRun e.codeStream).1,
        some (codeFinal (codeBranchRun e.codeStream).2.1
          (codeBranchRun e.codeStream).2.2)) := by
      rw [branchRun, if_neg h1, if_neg h2, if_pos hagent]
    refine ⟨?_, sendTurn_no_error e c _ _ hu hc hb, (sendTurn_done_last e c _ _ hu hc hb).1⟩
    intro n r hmem
    rw [sendTurn_success_shape e c _ _ hu hc hb]
    exact List.mem_append_left _ (List.mem_append_left _ (List.mem_append_left _
      (List.mem_append_right _ (codeBranch_toolres e.codeStream n r hmem))))

/-- A code-assistant turn whose tool invocation hits a sandbox failure. -/
def envCode : Env :=
  { userExists := true, conv := none, newConvId := "c1", message := "run this",
    routing := { agent := "code_assistant", confidence := 1, reason := "llm",
                 agentName := "Code Assistant", extractedCity := none },
    weather := .ok (), geminiWeather := { chunks := [], fails := false },
    searchStream := [],
    codeStream := [.toolCall "executeCode",
      .toolResult "executeCode" (executeCode (.runThrows "boom"))],
    geminiGeneral := { chunks := [], fails := false } }

/-- Witness for C6 at a concrete sandbox failure. -/
theorem C6_executeCode_failure_is_tool_result_witness :
    ((executeCode (.runThrows "boom")).success = false ∧
      ∃ msg, (executeCode (.runThrows "boom")).error = some msg ∧ msg ≠ "") ∧
    Event.toolRes "executeCode" (executeCode (.runThrows "boom")) ∈
      (sendTurn envCode).events ∧
    Event.errorEv ∉ (sendTurn envCode).events ∧
    (sendTurn envCode).events.getLast? = some Event.done := by
  have hall := C6_executeCode_failure_is_tool_result
  have hpart := hall.2 envCode { id := "c1", title := none, messages := [] }
    (by decide) (by decide) (by decide)
  exact ⟨hall.1 (.runThrows "boom") (by decide),
    hpart.1 "executeCode" _ (by decide), hpart.2.1, hpart.2.2⟩

/-- A code-assistant turn streaming only a whitespace delta plus one
successful `executeCode` result. -/
def envCodeWs : Env :=
  { userExists := true, conv := none, newConvId := "c1", message := "run",
    routing := { agent := "code_assistant", confidence := 1, reason := "llm",
                 agentName := "Code Assistant", extractedCity := none },
    weather := .ok (), geminiWeather := { chunks := [], fails := false },
    searchStream := [],
    codeStream := [.textDelta " ",
      .toolResult "executeCode" (executeCode (.runOk none ["42"] []))],
    geminiGeneral := { chunks := [], fails := false } }

/-- C10 counterexample: the stream does contain a text delta (a whitespace
chunk), yet the code branch substitutes the summaries as the whole content
instead of prepending them to the streamed text — `aiResponse.trim()` treats
whitespace-only text as absent. -/
theorem C10_counterexample :
    SPart.textDelta " " ∈ envCodeWs.codeStream ∧
    (sendTurn envCodeWs).persisted = some "**Code Output:**\n```\n42\n```" ∧
    (sendTurn envCodeWs).persisted ≠
      some ("**Code Output:**\n```\n42\n```" ++ "\n\n" ++ " ") := by
  exact ⟨by decide, by decide, by decide⟩

/-- C10 (amended): on the code-assistant route, whenever the stream carries at
least one `executeCode`/`generateUI` tool result the persisted content is
non-empty; if the concatenated deltas are empty or whitespace-only the content
is exactly the `"\n\n"`-joined summaries, otherwise the summaries are
prepended to the streamed text; in both cases the persisted content differs
from the plain concatenation of the `ai_chunk` deltas.  (As stated the claim
is false: with whitespace-only deltas the code substitutes instead of
prepending — see the counterexample.) -/
theorem C10_code_tool_content_amended (e : Env) (c : Conv)
    (hu : e.userExists = true) (hc : resolvedConv e = some c)
    (hagent : e.routing.agent = "code_assistant")
    (htool : ∃ n r, SPart.toolResult n r ∈ e.codeStream ∧
      (n = "executeCode" ∨ n = "generateUI")) :
    (sendTurn e).persisted =
      some (codeFinal (codeBranchRun e.codeStream).2.1 (codeBranchRun e.codeStream).2.2) ∧
    chunkConcat (sendTurn e).events = (codeBranchRun e.codeStream).2.1 ∧
    codeFinal (codeBranchRun e.codeStream).2.1 (codeBranchRun e.codeStream).2.2 ≠ "" ∧
    (trimStr (codeBranchRun e.codeStream).2.1 = "" →
      codeFinal (codeBranchRun e.codeStream).2.1 (codeBranchRun e.codeStream).2.2 =
        joinSep "\n\n" (codeBranchRun e.codeStream).2.2) ∧
    (trimStr (codeBranchRun e.codeStream).2.1 ≠ "" →
      codeFinal (codeBranchRun e.codeStream).2.1 (codeBranchRun e.codeStream).2.2 =
        joinSep "\n\n" (codeBranchRun e.codeStream).2.2 ++ "\n\n" ++
          (codeBranchRun e.codeStream).2.1) ∧
    codeFinal (codeBranchRun e.codeStream).2.1 (codeBranchRun e.codeStream).2.2 ≠
      chunkConcat (sendTurn e).events := by
  have h1 : e.routing.agent ≠ "weather" := by rw [hagent]; decide
  have h2 : e.routing.agent ≠ "web_search" := by rw [hagent]; decide
  have hb : branchRun e = ((codeBranchRun e.codeStream).1,
      some (codeFinal (codeBranchRun e.codeStream).2.1
        (codeBranchRun e.codeStream).2.2)) := by
    rw [branchRun, if_neg h1, if_neg h2, if_pos hagent]
  have hsumne := codeBranch_summaries_nonempty e.codeStream htool
  have hcc : chunkConcat (sendTurn e).events = (codeBranchRun e.codeStream).2.1 := by
    rw [sendTurn_chunkConcat e c _ _ hu hc hb, codeBranch_concat]
  cases hsums : (codeBranchRun e.codeStream).2.2 with
  | nil => exact absurd hsums hsumne
  | cons s0 srest =>
    obtain ⟨cs, hs0⟩ := codeBranch_summaries_star e.codeStream s0
      (hsums ▸ List.mem_cons_self s0 srest)
    have hs0ne : s0 ≠ "" := string_ne_empty_of_data s0 _ _ hs0
    have hjoin_ne : joinSep "\n\n" (s0 :: srest) ≠ "" := joinSep_ne_empty _ _ _ hs0ne
    obtain ⟨cs', hjhead⟩ := joinSep_head "\n\n" s0 srest _ cs hs0
    have hjtrim : trimStr (joinSep "\n\n" (s0 :: srest)) ≠ "" :=
      trimStr_ne_empty _ _ _ hjhead (by decide)
    refine ⟨by rw [sendTurn_success_shape e c _ _ hu hc hb, hsums], hcc, ?_, ?_, ?_, ?_⟩
    · rw [codeFinal]
      split
      · rw [if_neg (by simp)]
        exact hjoin_ne
      · rw [if_neg (by simp)]
        exact str_append_ne_empty_left _ _
          (str_append_ne_empty_right _ _ (by decide))
    · intro htr
      rw [codeFinal, if_pos htr, if_neg (by simp)]
    · intro htr
      rw [codeFinal, if_neg htr, if_neg (by simp)]
    · rw [hcc]
      by_cases htr : trimStr (codeBranchRun e.codeStream).2.1 = ""
      · rw [codeFinal, if_pos htr, if_neg (by simp)]
        intro heq
        rw [← heq] at htr
        exact hjtrim htr
      · rw [codeFinal, if_neg htr, if_neg (by simp)]
        intro heq
        have hlen := congrArg String.length heq
        rw [str_length_append, str_length_append] at hlen
        have h2l : ("\n\n" : String).length = 2 := rfl
        rw [h2l] at hlen
        omega

/-- Witness for the amended C10 at the whitespace-delta turn. -/
theorem C10_code_tool_content_amended_witness :
    (sendTurn envCodeWs).persisted =
      some (codeFinal (codeBranchRun envCodeWs.codeStream).2.1
        (codeBranchRun envCodeWs.codeStream).2.2) ∧
    chunkConcat (sendTurn envCodeWs).events = (codeBranchRun envCodeWs.codeStream).2.1 ∧
    codeFinal (codeBranchRun envCodeWs.codeStream).2.1
      (codeBranchRun envCodeWs.codeStream).2.2 ≠ "" ∧
    (trimStr (codeBranchRun envCodeWs.codeStream).2.1 = "" →
      codeFinal (codeBranchRun envCodeWs.codeStream).2.1
        (codeBranchRun envCodeWs.codeStream).2.2 =
          joinSep "\n\n" (codeBranchRun envCodeWs.codeStream).2.2) ∧
    (trimStr (codeBranchRun envCodeWs.codeStream).2.1 ≠ "" →
      codeFinal (codeBranchRun envCodeWs.codeStream).2.1
        (codeBranchRun envCodeWs.codeStream).2.2 =
          joinSep "\n\n" (codeBranchRun envCodeWs.codeStream).2.2 ++ "\n\n" ++
            (codeBranchRun envCodeWs.codeStream).2.1) ∧
    codeFinal (codeBranchRun envCodeWs.codeStream).2.1
      (codeBranchRun envCodeWs.codeStream).2.2 ≠
        chunkConcat (sendTurn envCodeWs).events :=
  C10_code_tool_content_amended envCodeWs { id := "c1", title := none, messages := [] }
    (by decide) (by decide) (by decide)
    ⟨"executeCode", executeCode (.runOk none ["42"] []), by decide, Or.inl rfl⟩

end Synergi
